import Mathlib

/-!
# Verification of the cql-nom schema front end

This file gives a shallow embedding, in Lean 4, of the data model, the
reference-resolution pass and the parsers of the cql-nom repository
(a parser for the CQL data-definition sublanguage), together with theorems
about the embedded definitions.

The repository carries two parallel implementations:
* a modular tree (`src/model/*`, `src/parse/*`) with phase-parameterized
  AST types and a `reference_types` resolution pass, and
* a legacy self-contained implementation in `src/lib.rs` that resolves
  user-defined-type and column references during parsing.

Both are embedded below.  Rust string slices are modelled as `String` or
`List Char`, `Rc` shared handles as plain values, and `Result`/nom
`IResult` as `Except` respectively a dedicated parse-result type `PRes`
that also has outcomes for nom `Failure` and Rust panics.
-/

set_option maxHeartbeats 1000000

namespace CqlNom

/-! ## ASCII case folding

`u8::to_ascii_lowercase` adds 32 to bytes in `b'A'..=b'Z'`.  Since UTF-8
bytes of multi-byte characters are never in that range, folding the bytes
of a string agrees with folding its characters, so we model the byte-wise
Rust functions on `Char` values. -/

def toLowerAscii (c : Char) : Char :=
  if 'A' ≤ c ∧ c ≤ 'Z' then Char.ofNat (c.toNat + 32) else c

/-- `str::eq_ignore_ascii_case`: equal length and pointwise equality after
ASCII lowercasing (Rust: `self.len() == other.len() && zip ... all`). -/
def eqIgnoreAsciiCase : List Char → List Char → Bool
  | [], [] => true
  | a :: s, b :: t => (toLowerAscii a == toLowerAscii b) && eqIgnoreAsciiCase s t
  | _, _ => false

/-- The specification-level notion of "equal ignoring ASCII case":
both texts normalize to the same lowercased character sequence. -/
def asciiFold (s : List Char) : List Char := s.map toLowerAscii

theorem eqIgnoreAsciiCase_iff (s t : List Char) :
    eqIgnoreAsciiCase s t = true ↔ asciiFold s = asciiFold t := by
  induction s generalizing t with
  | nil => cases t <;> simp [eqIgnoreAsciiCase, asciiFold]
  | cons a s ih =>
    cases t with
    | nil => simp [eqIgnoreAsciiCase, asciiFold]
    | cons b t =>
      simp [eqIgnoreAsciiCase, asciiFold, Bool.and_eq_true, ih, asciiFold]

/-! ## Identifiers (`src/model/identifier.rs`, also `src/lib.rs`) -/

/-- `CqlIdentifier`: an unquoted or quoted name. -/
inductive CqlIdentifier where
  | Unquoted (text : String)
  | Quoted (text : String)
deriving Repr, DecidableEq

/-- The `PartialEq` implementation of `CqlIdentifier`
(`src/model/identifier.rs` lines 41-50, identically `src/lib.rs` lines
1166-1175): any pairing involving an `Unquoted` side compares with
`eq_ignore_ascii_case`, `Quoted`/`Quoted` compares exactly. -/
def identEq : CqlIdentifier → CqlIdentifier → Bool
  | .Unquoted s, .Unquoted o => eqIgnoreAsciiCase s.data o.data
  | .Unquoted s, .Quoted o => eqIgnoreAsciiCase s.data o.data
  | .Quoted s, .Unquoted o => eqIgnoreAsciiCase s.data o.data
  | .Quoted s, .Quoted o => s == o

/-! ## Qualified identifiers (`src/model/qualified_identifier.rs`) -/

/-- `CqlQualifiedIdentifier`: optional keyspace plus name. -/
structure CqlQualifiedIdentifier where
  keyspace : Option CqlIdentifier
  name : CqlIdentifier
deriving Repr, DecidableEq

/-- `PartialEq` on `Option<CqlIdentifier>` (derived Rust semantics). -/
def optIdentEq : Option CqlIdentifier → Option CqlIdentifier → Bool
  | none, none => true
  | some a, some b => identEq a b
  | _, _ => false

/-- `PartialEq` on `CqlQualifiedIdentifier`
(`src/model/qualified_identifier.rs` lines 25-29). -/
def qidEq (a b : CqlQualifiedIdentifier) : Bool :=
  optIdentEq a.keyspace b.keyspace && identEq a.name b.name

/-! ## Contextualization (`src/model.rs` lines 25-53)

The `Identifiable` trait default methods, as functions of the entity's own
keyspace and name. -/

/-- `Identifiable::contextualized_keyspace`: the entity's own keyspace wins,
otherwise the ambient keyspace is substituted. -/
def contextualizedKeyspace (own ambient : Option CqlIdentifier) :
    Option CqlIdentifier :=
  match own with
  | some k => some k
  | none => ambient

/-- `Identifiable::contextualized_identifier`: pair the contextualized
keyspace with the entity's own name. -/
def contextualizedIdentifier (own : Option CqlIdentifier) (name : CqlIdentifier)
    (ambient : Option CqlIdentifier) : CqlQualifiedIdentifier :=
  ⟨contextualizedKeyspace own ambient, name⟩

/-! ## Orders and types (`src/model/order.rs`, `src/model/cql_type.rs`) -/

/-- `CqlOrder`. -/
inductive CqlOrder where
  | Asc
  | Desc
deriving Repr, DecidableEq

/-- `CqlType<UdtType>` (`src/model/cql_type.rs` lines 8-64): the 21 scalar
kinds plus `FROZEN`, `MAP`, `SET`, `LIST`, `TUPLE` and a user-defined-type
reference whose representation is the parameter. -/
inductive CqlType (U : Type) where
  | ASCII
  | BIGINT
  | BLOB
  | BOOLEAN
  | COUNTER
  | DATE
  | DECIMAL
  | DOUBLE
  | DURATION
  | FLOAT
  | INET
  | INT
  | SMALLINT
  | TEXT
  | TIME
  | TIMESTAMP
  | TIMEUUID
  | TINYINT
  | UUID
  | VARCHAR
  | VARINT
  | FROZEN (t : CqlType U)
  | MAP (key value : CqlType U)
  | SET (t : CqlType U)
  | LIST (t : CqlType U)
  | TUPLE (ts : List (CqlType U))
  | UserDefined (u : U)
deriving Repr

/-! ## Resolved entities (`src/model/user_defined_type.rs`,
`src/model/table/*`, `src/model/table.rs`, `src/model/statement.rs`)

`Rc<...>` handles are modelled as plain values.  A resolved user-defined
type (`CqlUserDefinedType<I>`) has fields whose types may again reference
resolved user-defined types. -/

/-- `CqlUserDefinedType<I>` (resolved form), `src/model/user_defined_type.rs`
lines 114-122. -/
inductive CqlUserDefinedTypeR where
  | mk (if_not_exists : Bool) (name : CqlQualifiedIdentifier)
      (fields : List (CqlIdentifier × CqlType CqlUserDefinedTypeR))
deriving Repr

def CqlUserDefinedTypeR.if_not_exists : CqlUserDefinedTypeR → Bool
  | .mk b _ _ => b

def CqlUserDefinedTypeR.name : CqlUserDefinedTypeR → CqlQualifiedIdentifier
  | .mk _ n _ => n

def CqlUserDefinedTypeR.fields :
    CqlUserDefinedTypeR → List (CqlIdentifier × CqlType CqlUserDefinedTypeR)
  | .mk _ _ fs => fs

/-- Resolved column (`CqlColumn<I, Rc<CqlUserDefinedType<I>>>`). -/
structure CqlColumnR where
  name : CqlIdentifier
  cql_type : CqlType CqlUserDefinedTypeR
  is_static : Bool
  is_primary_key : Bool
deriving Repr

/-- Resolved primary key. -/
structure CqlPrimaryKeyR where
  partition_key : List CqlColumnR
  clustering_columns : List CqlColumnR
deriving Repr

/-- Resolved table options. -/
structure CqlTableOptionsR where
  compact_storage : Bool
  clustering_order : List (CqlColumnR × CqlOrder)
  options : List (String × String)
deriving Repr

/-- Resolved table. -/
structure CqlTableR where
  if_not_exists : Bool
  name : CqlQualifiedIdentifier
  columns : List CqlColumnR
  primary_key : Option CqlPrimaryKeyR
  options : Option CqlTableOptionsR
deriving Repr

/-- `CqlStatement<Table, UdtType>` (`src/model/statement.rs` lines 11-17). -/
inductive CqlStatement (Table Udt : Type) where
  | CreateTable (t : Table)
  | CreateUserDefinedType (u : Udt)
deriving Repr

/-- Resolved statements: the context threaded through resolution. -/
abbrev RStatement := CqlStatement CqlTableR CqlUserDefinedTypeR

/-! ## Parsed entities (phase `TypeRef = ColumnRef = CqlIdentifier`) -/

/-- Parsed column. -/
structure CqlColumnP where
  name : CqlIdentifier
  cql_type : CqlType CqlIdentifier
  is_static : Bool
  is_primary_key : Bool
deriving Repr

/-- Parsed primary key: raw column-name references. -/
structure CqlPrimaryKeyP where
  partition_key : List CqlIdentifier
  clustering_columns : List CqlIdentifier
deriving Repr

/-- Parsed table options. -/
structure CqlTableOptionsP where
  compact_storage : Bool
  clustering_order : List (CqlIdentifier × CqlOrder)
  options : List (String × String)
deriving Repr

/-- Parsed table. -/
structure CqlTableP where
  if_not_exists : Bool
  name : CqlQualifiedIdentifier
  columns : List CqlColumnP
  primary_key : Option CqlPrimaryKeyP
  options : Option CqlTableOptionsP
deriving Repr

/-- `ParsedCqlUserDefinedType<I, UdtTypeRef>`
(`src/model/user_defined_type.rs` lines 34-42). -/
structure ParsedCqlUserDefinedType where
  if_not_exists : Bool
  name : CqlQualifiedIdentifier
  fields : List (CqlIdentifier × CqlType CqlIdentifier)
deriving Repr

/-- Parsed statements. -/
abbrev PStatement := CqlStatement CqlTableP ParsedCqlUserDefinedType

/-! ## Resolution (`reference_types`) -/

/-- The predicate of the `find` in `CqlType::reference_types`
(`src/model/cql_type.rs` lines 126-136): the statement is a
`CreateUserDefinedType` whose contextualized qualified identifier equals
the contextualized qualified identifier of the reference.  The reference
is a bare `CqlIdentifier`, whose `Identifiable::keyspace()` is `None`. -/
def udtDefMatches (udt : CqlIdentifier) (ks : Option CqlIdentifier) :
    RStatement → Bool
  | .CreateUserDefinedType d =>
      qidEq (contextualizedIdentifier d.name.keyspace d.name.name ks)
        (contextualizedIdentifier none udt ks)
  | .CreateTable _ => false

mutual

/-- `CqlType::reference_types` (`src/model/cql_type.rs` lines 66-143):
scalars map to themselves, wrappers resolve recursively, and a
`UserDefined` reference is looked up among the already resolved statements
of the context; on failure the contextualized qualified identifier of the
reference is returned.  (In the source the statement found by the `find`
is unwrapped with `create_user_defined_type().unwrap()`, which cannot
panic because the predicate only accepts `CreateUserDefinedType`
statements; the catch-all error arm below is therefore only reached when
the `find` comes back empty.) -/
def CqlType.referenceTypes :
    CqlType CqlIdentifier → Option CqlIdentifier → List RStatement →
    Except CqlQualifiedIdentifier (CqlType CqlUserDefinedTypeR)
  | .ASCII, _, _ => .ok .ASCII
  | .BIGINT, _, _ => .ok .BIGINT
  | .BLOB, _, _ => .ok .BLOB
  | .BOOLEAN, _, _ => .ok .BOOLEAN
  | .COUNTER, _, _ => .ok .COUNTER
  | .DATE, _, _ => .ok .DATE
  | .DECIMAL, _, _ => .ok .DECIMAL
  | .DOUBLE, _, _ => .ok .DOUBLE
  | .DURATION, _, _ => .ok .DURATION
  | .FLOAT, _, _ => .ok .FLOAT
  | .INET, _, _ => .ok .INET
  | .INT, _, _ => .ok .INT
  | .SMALLINT, _, _ => .ok .SMALLINT
  | .TEXT, _, _ => .ok .TEXT
  | .TIME, _, _ => .ok .TIME
  | .TIMESTAMP, _, _ => .ok .TIMESTAMP
  | .TIMEUUID, _, _ => .ok .TIMEUUID
  | .TINYINT, _, _ => .ok .TINYINT
  | .UUID, _, _ => .ok .UUID
  | .VARCHAR, _, _ => .ok .VARCHAR
  | .VARINT, _, _ => .ok .VARINT
  | .FROZEN t, ks, ctx =>
    match CqlType.referenceTypes t ks ctx with
    | .ok r => .ok (.FROZEN r)
    | .error e => .error e
  | .MAP k v, ks, ctx =>
    match CqlType.referenceTypes k ks ctx with
    | .ok rk =>
      match CqlType.referenceTypes v ks ctx with
      | .ok rv => .ok (.MAP rk rv)
      | .error e => .error e
    | .error e => .error e
  | .SET t, ks, ctx =>
    match CqlType.referenceTypes t ks ctx with
    | .ok r => .ok (.SET r)
    | .error e => .error e
  | .LIST t, ks, ctx =>
    match CqlType.referenceTypes t ks ctx with
    | .ok r => .ok (.LIST r)
    | .error e => .error e
  | .TUPLE ts, ks, ctx =>
    match CqlType.referenceTypesList ts ks ctx with
    | .ok rs => .ok (.TUPLE rs)
    | .error e => .error e
  | .UserDefined udt, ks, ctx =>
    match ctx.find? (udtDefMatches udt ks) with
    | some (.CreateUserDefinedType d) => .ok (.UserDefined d)
    | _ => .error (contextualizedIdentifier none udt ks)

/-- The `collect::<Result<Vec<_>, _>>` over the elements of a `TUPLE`. -/
def CqlType.referenceTypesList :
    List (CqlType CqlIdentifier) → Option CqlIdentifier → List RStatement →
    Except CqlQualifiedIdentifier (List (CqlType CqlUserDefinedTypeR))
  | [], _, _ => .ok []
  | t :: ts, ks, ctx =>
    match CqlType.referenceTypes t ks ctx with
    | .ok r =>
      match CqlType.referenceTypesList ts ks ctx with
      | .ok rs => .ok (r :: rs)
      | .error e => .error e
    | .error e => .error e

end

/-- `CqlColumn::reference_types` (`src/model/table/column.rs` lines 72-90). -/
def CqlColumnP.referenceTypes (c : CqlColumnP) (ks : Option CqlIdentifier)
    (ctx : List RStatement) : Except CqlQualifiedIdentifier CqlColumnR :=
  match c.cql_type.referenceTypes ks ctx with
  | .ok t => .ok ⟨c.name, t, c.is_static, c.is_primary_key⟩
  | .error e => .error e

/-- The `map(Rc::new)`-wrapped `collect` over a table's columns
(`src/model/table.rs` lines 116-124). -/
def resolveColumns : List CqlColumnP → Option CqlIdentifier → List RStatement →
    Except CqlQualifiedIdentifier (List CqlColumnR)
  | [], _, _ => .ok []
  | c :: cs, ks, ctx =>
    match c.referenceTypes ks ctx with
    | .ok r =>
      match resolveColumns cs ks ctx with
      | .ok rs => .ok (r :: rs)
      | .error e => .error e
    | .error e => .error e

/-- The `find` over the table's own resolved columns used by
`CqlPrimaryKey::reference_types` and `CqlTableOptions::reference_types`
(`src/model/table/primary_key.rs` lines 50-51, `src/model/table/options.rs`
lines 62-63): both the column and the raw reference have no keyspace of
their own, and are compared by contextualized-identifier equality. -/
def lookupColumnRef (cols : List CqlColumnR) (ks : Option CqlIdentifier)
    (ref : CqlIdentifier) : Option CqlColumnR :=
  cols.find? fun c =>
    qidEq (contextualizedIdentifier none c.name ks)
      (contextualizedIdentifier none ref ks)

/-- The `collect` over a list of raw column references, failing with the
contextualized identifier of the first unmatched reference. -/
def resolveColumnRefs : List CqlIdentifier → Option CqlIdentifier →
    List CqlColumnR → Except CqlQualifiedIdentifier (List CqlColumnR)
  | [], _, _ => .ok []
  | r :: rs, ks, cols =>
    match lookupColumnRef cols ks r with
    | some c =>
      match resolveColumnRefs rs ks cols with
      | .ok l => .ok (c :: l)
      | .error e => .error e
    | none => .error (contextualizedIdentifier none r ks)

/-- `CqlPrimaryKey::reference_types`
(`src/model/table/primary_key.rs` lines 38-67). -/
def CqlPrimaryKeyP.referenceTypes (pk : CqlPrimaryKeyP)
    (ks : Option CqlIdentifier) (cols : List CqlColumnR) :
    Except CqlQualifiedIdentifier CqlPrimaryKeyR :=
  match resolveColumnRefs pk.partition_key ks cols with
  | .ok p =>
    match resolveColumnRefs pk.clustering_columns ks cols with
    | .ok c => .ok ⟨p, c⟩
    | .error e => .error e
  | .error e => .error e

/-- The `collect` over the clustering-order pairs of the table options. -/
def resolveOrderRefs : List (CqlIdentifier × CqlOrder) → Option CqlIdentifier →
    List CqlColumnR →
    Except CqlQualifiedIdentifier (List (CqlColumnR × CqlOrder))
  | [], _, _ => .ok []
  | (r, o) :: rs, ks, cols =>
    match lookupColumnRef cols ks r with
    | some c =>
      match resolveOrderRefs rs ks cols with
      | .ok l => .ok ((c, o) :: l)
      | .error e => .error e
    | none => .error (contextualizedIdentifier none r ks)

/-- `CqlTableOptions::reference_types`
(`src/model/table/options.rs` lines 50-74). -/
def CqlTableOptionsP.referenceTypes (o : CqlTableOptionsP)
    (ks : Option CqlIdentifier) (cols : List CqlColumnR) :
    Except CqlQualifiedIdentifier CqlTableOptionsR :=
  match resolveOrderRefs o.clustering_order ks cols with
  | .ok l => .ok ⟨o.compact_storage, l, o.options⟩
  | .error e => .error e

/-- `CqlTable::reference_types` (`src/model/table.rs` lines 97-142):
contextualize the table's keyspace, resolve the columns, then the primary
key and the options against the just-resolved column list. -/
def CqlTableP.referenceTypes (t : CqlTableP) (amb : Option CqlIdentifier)
    (ctx : List RStatement) : Except CqlQualifiedIdentifier CqlTableR :=
  let ks := contextualizedKeyspace t.name.keyspace amb
  match resolveColumns t.columns ks ctx with
  | .ok cols =>
    match (match t.primary_key with
           | some pk =>
             match pk.referenceTypes ks cols with
             | .ok r => .ok (some r)
             | .error e => .error e
           | none => .ok none :
           Except CqlQualifiedIdentifier (Option CqlPrimaryKeyR)) with
    | .ok pk =>
      match (match t.options with
             | some o =>
               match o.referenceTypes ks cols with
               | .ok r => .ok (some r)
               | .error e => .error e
             | none => .ok none :
             Except CqlQualifiedIdentifier (Option CqlTableOptionsR)) with
      | .ok opts => .ok ⟨t.if_not_exists, t.name, cols, pk, opts⟩
      | .error e => .error e
    | .error e => .error e
  | .error e => .error e

/-- The keyspace under which a UDT statement resolves its fields
(`src/model/user_defined_type.rs` line 96:
`self.name.keyspace().or(keyspace)`). -/
def udtCtxKeyspace (u : ParsedCqlUserDefinedType) (amb : Option CqlIdentifier) :
    Option CqlIdentifier :=
  match u.name.keyspace with
  | some k => some k
  | none => amb

/-- The `collect` over the fields of a parsed UDT. -/
def resolveFields : List (CqlIdentifier × CqlType CqlIdentifier) →
    Option CqlIdentifier → List RStatement →
    Except CqlQualifiedIdentifier
      (List (CqlIdentifier × CqlType CqlUserDefinedTypeR))
  | [], _, _ => .ok []
  | (n, t) :: fs, ks, ctx =>
    match t.referenceTypes ks ctx with
    | .ok r =>
      match resolveFields fs ks ctx with
      | .ok rs => .ok ((n, r) :: rs)
      | .error e => .error e
    | .error e => .error e

/-- `ParsedCqlUserDefinedType::reference_types`
(`src/model/user_defined_type.rs` lines 86-112): the resolution context is
exactly the list of previously resolved statements; the UDT being built is
not part of it. -/
def ParsedCqlUserDefinedType.referenceTypes (u : ParsedCqlUserDefinedType)
    (amb : Option CqlIdentifier) (ctx : List RStatement) :
    Except CqlQualifiedIdentifier CqlUserDefinedTypeR :=
  match resolveFields u.fields (udtCtxKeyspace u amb) ctx with
  | .ok fs => .ok (.mk u.if_not_exists u.name fs)
  | .error e => .error e

/-- `CqlStatement::reference_types` (`src/model/statement.rs` lines 37-70). -/
def CqlStatementP.referenceTypes (s : PStatement) (amb : Option CqlIdentifier)
    (ctx : List RStatement) : Except CqlQualifiedIdentifier RStatement :=
  match s with
  | .CreateTable t =>
    match t.referenceTypes amb ctx with
    | .ok r => .ok (.CreateTable r)
    | .error e => .error e
  | .CreateUserDefinedType u =>
    match u.referenceTypes amb ctx with
    | .ok r => .ok (.CreateUserDefinedType r)
    | .error e => .error e

/-! ## UDT-free type trees and their structural image under resolution -/

mutual

/-- The type tree contains no `UserDefined` leaf. -/
def noUdt : CqlType CqlIdentifier → Bool
  | .ASCII => true
  | .BIGINT => true
  | .BLOB => true
  | .BOOLEAN => true
  | .COUNTER => true
  | .DATE => true
  | .DECIMAL => true
  | .DOUBLE => true
  | .DURATION => true
  | .FLOAT => true
  | .INET => true
  | .INT => true
  | .SMALLINT => true
  | .TEXT => true
  | .TIME => true
  | .TIMESTAMP => true
  | .TIMEUUID => true
  | .TINYINT => true
  | .UUID => true
  | .VARCHAR => true
  | .VARINT => true
  | .FROZEN t => noUdt t
  | .MAP k v => noUdt k && noUdt v
  | .SET t => noUdt t
  | .LIST t => noUdt t
  | .TUPLE ts => noUdtList ts
  | .UserDefined _ => false

def noUdtList : List (CqlType CqlIdentifier) → Bool
  | [] => true
  | t :: ts => noUdt t && noUdtList ts

end

mutual

/-- The structural identity on UDT-free trees: scalars map to themselves,
wrappers are rebuilt around the images of their children, and a
`UserDefined` leaf has no image. -/
def retypeQ : CqlType CqlIdentifier → Option (CqlType CqlUserDefinedTypeR)
  | .ASCII => some .ASCII
  | .BIGINT => some .BIGINT
  | .BLOB => some .BLOB
  | .BOOLEAN => some .BOOLEAN
  | .COUNTER => some .COUNTER
  | .DATE => some .DATE
  | .DECIMAL => some .DECIMAL
  | .DOUBLE => some .DOUBLE
  | .DURATION => some .DURATION
  | .FLOAT => some .FLOAT
  | .INET => some .INET
  | .INT => some .INT
  | .SMALLINT => some .SMALLINT
  | .TEXT => some .TEXT
  | .TIME => some .TIME
  | .TIMESTAMP => some .TIMESTAMP
  | .TIMEUUID => some .TIMEUUID
  | .TINYINT => some .TINYINT
  | .UUID => some .UUID
  | .VARCHAR => some .VARCHAR
  | .VARINT => some .VARINT
  | .FROZEN t =>
    match retypeQ t with
    | some r => some (.FROZEN r)
    | none => none
  | .MAP k v =>
    match retypeQ k with
    | some rk =>
      match retypeQ v with
      | some rv => some (.MAP rk rv)
      | none => none
    | none => none
  | .SET t =>
    match retypeQ t with
    | some r => some (.SET r)
    | none => none
  | .LIST t =>
    match retypeQ t with
    | some r => some (.LIST r)
    | none => none
  | .TUPLE ts =>
    match retypeQList ts with
    | some rs => some (.TUPLE rs)
    | none => none
  | .UserDefined _ => none

def retypeQList : List (CqlType CqlIdentifier) →
    Option (List (CqlType CqlUserDefinedTypeR))
  | [] => some []
  | t :: ts =>
    match retypeQ t with
    | some r =>
      match retypeQList ts with
      | some rs => some (r :: rs)
      | none => none
    | none => none

end

/-! ## Helper lemmas about the resolution pass -/

theorem userDefined_resolution_error {udt : CqlIdentifier}
    {ks : Option CqlIdentifier} {ctx : List RStatement}
    (h : ∀ s ∈ ctx, udtDefMatches udt ks s = false) :
    CqlType.referenceTypes (.UserDefined udt) ks ctx =
      .error (contextualizedIdentifier none udt ks) := by
  have hnone : ctx.find? (udtDefMatches udt ks) = none :=
    List.find?_eq_none.mpr (by intro x hx; simp [h x hx])
  simp [CqlType.referenceTypes, hnone]

mutual

theorem noUdt_resolves :
    ∀ (t : CqlType CqlIdentifier) (ks : Option CqlIdentifier)
      (ctx : List RStatement), noUdt t = true →
      ∃ r, retypeQ t = some r ∧ CqlType.referenceTypes t ks ctx = .ok r
  | .ASCII, _, _, _ => ⟨.ASCII, rfl, rfl⟩
  | .BIGINT, _, _, _ => ⟨.BIGINT, rfl, rfl⟩
  | .BLOB, _, _, _ => ⟨.BLOB, rfl, rfl⟩
  | .BOOLEAN, _, _, _ => ⟨.BOOLEAN, rfl, rfl⟩
  | .COUNTER, _, _, _ => ⟨.COUNTER, rfl, rfl⟩
  | .DATE, _, _, _ => ⟨.DATE, rfl, rfl⟩
  | .DECIMAL, _, _, _ => ⟨.DECIMAL, rfl, rfl⟩
  | .DOUBLE, _, _, _ => ⟨.DOUBLE, rfl, rfl⟩
  | .DURATION, _, _, _ => ⟨.DURATION, rfl, rfl⟩
  | .FLOAT, _, _, _ => ⟨.FLOAT, rfl, rfl⟩
  | .INET, _, _, _ => ⟨.INET, rfl, rfl⟩
  | .INT, _, _, _ => ⟨.INT, rfl, rfl⟩
  | .SMALLINT, _, _, _ => ⟨.SMALLINT, rfl, rfl⟩
  | .TEXT, _, _, _ => ⟨.TEXT, rfl, rfl⟩
  | .TIME, _, _, _ => ⟨.TIME, rfl, rfl⟩
  | .TIMESTAMP, _, _, _ => ⟨.TIMESTAMP, rfl, rfl⟩
  | .TIMEUUID, _, _, _ => ⟨.TIMEUUID, rfl, rfl⟩
  | .TINYINT, _, _, _ => ⟨.TINYINT, rfl, rfl⟩
  | .UUID, _, _, _ => ⟨.UUID, rfl, rfl⟩
  | .VARCHAR, _, _, _ => ⟨.VARCHAR, rfl, rfl⟩
  | .VARINT, _, _, _ => ⟨.VARINT, rfl, rfl⟩
  | .FROZEN t, ks, ctx, h => by
    have h1 : noUdt t = true := by simpa [noUdt] using h
    obtain ⟨r, hr, he⟩ := noUdt_resolves t ks ctx h1
    exact ⟨.FROZEN r, by simp [retypeQ, hr],
      by simp [CqlType.referenceTypes, he]⟩
  | .MAP k v, ks, ctx, h => by
    have hk : noUdt k = true := by
      have := (Bool.and_eq_true _ _).mp (by simpa [noUdt] using h)
      exact this.1
    have hv : noUdt v = true := by
      have := (Bool.and_eq_true _ _).mp (by simpa [noUdt] using h)
      exact this.2
    obtain ⟨rk, hrk, hek⟩ := noUdt_resolves k ks ctx hk
    obtain ⟨rv, hrv, hev⟩ := noUdt_resolves v ks ctx hv
    exact ⟨.MAP rk rv, by simp [retypeQ, hrk, hrv],
      by simp [CqlType.referenceTypes, hek, hev]⟩
  | .SET t, ks, ctx, h => by
    have h1 : noUdt t = true := by simpa [noUdt] using h
    obtain ⟨r, hr, he⟩ := noUdt_resolves t ks ctx h1
    exact ⟨.SET r, by simp [retypeQ, hr], by simp [CqlType.referenceTypes, he]⟩
  | .LIST t, ks, ctx, h => by
    have h1 : noUdt t = true := by simpa [noUdt] using h
    obtain ⟨r, hr, he⟩ := noUdt_resolves t ks ctx h1
    exact ⟨.LIST r, by simp [retypeQ, hr], by simp [CqlType.referenceTypes, he]⟩
  | .TUPLE ts, ks, ctx, h => by
    have h1 : noUdtList ts = true := by simpa [noUdt] using h
    obtain ⟨rs, hrs, hes⟩ := noUdtList_resolves ts ks ctx h1
    exact ⟨.TUPLE rs, by simp [retypeQ, hrs],
      by simp [CqlType.referenceTypes, hes]⟩

theorem noUdtList_resolves :
    ∀ (ts : List (CqlType CqlIdentifier)) (ks : Option CqlIdentifier)
      (ctx : List RStatement), noUdtList ts = true →
      ∃ rs, retypeQList ts = some rs ∧
        CqlType.referenceTypesList ts ks ctx = .ok rs
  | [], _, _, _ => ⟨[], rfl, rfl⟩
  | t :: ts, ks, ctx, h => by
    have ht : noUdt t = true := by
      have := (Bool.and_eq_true _ _).mp (by simpa [noUdtList] using h)
      exact this.1
    have hts : noUdtList ts = true := by
      have := (Bool.and_eq_true _ _).mp (by simpa [noUdtList] using h)
      exact this.2
    obtain ⟨r, hr, he⟩ := noUdt_resolves t ks ctx ht
    obtain ⟨rs, hrs, hes⟩ := noUdtList_resolves ts ks ctx hts
    exact ⟨r :: rs, by simp [retypeQList, hr, hrs],
      by simp [CqlType.referenceTypesList, he, hes]⟩

end

theorem resolveFields_error_of_front {pre post : List (CqlIdentifier × CqlType CqlIdentifier)}
    {fname : CqlIdentifier} {ty : CqlType CqlIdentifier}
    {ks : Option CqlIdentifier} {ctx : List RStatement}
    {e : CqlQualifiedIdentifier}
    (hpre : ∀ p ∈ pre, ∃ r, CqlType.referenceTypes p.2 ks ctx = .ok r)
    (herr : CqlType.referenceTypes ty ks ctx = .error e) :
    resolveFields (pre ++ (fname, ty) :: post) ks ctx = .error e := by
  induction pre with
  | nil => simp [resolveFields, herr]
  | cons p pre ih =>
    obtain ⟨r, hr⟩ := hpre p (by simp)
    have hrest := ih (fun q hq => hpre q (by simp [hq]))
    obtain ⟨n, t⟩ := p
    simp only [List.cons_append, resolveFields]
    simp only at hr
    rw [hr]
    simp [hrest]

theorem find?_append_cases {α : Type _} {p : α → Bool} {l₁ l₂ : List α} {a : α}
    (h : (l₁ ++ l₂).find? p = some a) :
    l₁.find? p = some a ∨ (l₁.find? p = none ∧ l₂.find? p = some a) := by
  induction l₁ with
  | nil => exact Or.inr ⟨rfl, by simpa using h⟩
  | cons x l₁ ih =>
    by_cases hx : p x
    · left
      rw [List.cons_append, List.find?_cons_of_pos _ hx] at h
      rw [List.find?_cons_of_pos _ hx]
      exact h
    · rw [List.cons_append, List.find?_cons_of_neg _ (by simpa using hx)] at h
      rw [List.find?_cons_of_neg _ (by simpa using hx)]
      exact ih h

theorem resolveColumnRefs_error_first (cols : List CqlColumnR)
    (ks : Option CqlIdentifier) :
    ∀ {refs : List CqlIdentifier} {r : CqlIdentifier},
      refs.find? (fun x => (lookupColumnRef cols ks x).isNone) = some r →
      resolveColumnRefs refs ks cols =
        .error (contextualizedIdentifier none r ks) := by
  intro refs
  induction refs with
  | nil => intro r h; simp at h
  | cons x rest ih =>
    intro r h
    by_cases hx : (lookupColumnRef cols ks x).isNone = true
    · rw [List.find?_cons, hx] at h
      injection h with h
      subst h
      have hn : lookupColumnRef cols ks x = none := Option.isNone_iff_eq_none.mp hx
      simp [resolveColumnRefs, hn]
    · have hfx : (lookupColumnRef cols ks x).isNone = false := eq_false_of_ne_true hx
      rw [List.find?_cons, hfx] at h
      cases hc : lookupColumnRef cols ks x with
      | none => exact absurd (by simp [hc]) hx
      | some c => simp [resolveColumnRefs, hc, ih h]

theorem resolveColumnRefs_ok_of_none (cols : List CqlColumnR)
    (ks : Option CqlIdentifier) :
    ∀ {refs : List CqlIdentifier},
      refs.find? (fun x => (lookupColumnRef cols ks x).isNone) = none →
      ∃ l, resolveColumnRefs refs ks cols = .ok l := by
  intro refs
  induction refs with
  | nil => intro _; exact ⟨[], rfl⟩
  | cons x rest ih =>
    intro h
    rw [List.find?_eq_none] at h
    have hx : ¬ ((lookupColumnRef cols ks x).isNone = true) := h x (by simp)
    have hrest : rest.find? (fun x => (lookupColumnRef cols ks x).isNone) = none :=
      List.find?_eq_none.mpr (fun y hy => h y (by simp [hy]))
    obtain ⟨l, hl⟩ := ih hrest
    cases hc : lookupColumnRef cols ks x with
    | none => exact absurd (by simp [hc]) hx
    | some c => exact ⟨c :: l, by simp [resolveColumnRefs, hc, hl]⟩

theorem resolveOrderRefs_error_first (cols : List CqlColumnR)
    (ks : Option CqlIdentifier) :
    ∀ {pairs : List (CqlIdentifier × CqlOrder)} {r : CqlIdentifier},
      (pairs.map Prod.fst).find? (fun x => (lookupColumnRef cols ks x).isNone) =
        some r →
      resolveOrderRefs pairs ks cols =
        .error (contextualizedIdentifier none r ks) := by
  intro pairs
  induction pairs with
  | nil => intro r h; simp at h
  | cons p rest ih =>
    intro r h
    obtain ⟨x, o⟩ := p
    simp only [List.map_cons] at h
    by_cases hx : (lookupColumnRef cols ks x).isNone = true
    · rw [List.find?_cons, hx] at h
      injection h with h
      subst h
      have hn : lookupColumnRef cols ks x = none := Option.isNone_iff_eq_none.mp hx
      simp [resolveOrderRefs, hn]
    · have hfx : (lookupColumnRef cols ks x).isNone = false := eq_false_of_ne_true hx
      rw [List.find?_cons, hfx] at h
      cases hc : lookupColumnRef cols ks x with
      | none => exact absurd (by simp [hc]) hx
      | some c => simp [resolveOrderRefs, hc, ih h]

/-- The column references a table's resolution looks up, in processing
order: partition key, clustering columns, then clustering order. -/
def tableRefIdents (t : CqlTableP) : List CqlIdentifier :=
  (match t.primary_key with
   | some pk => pk.partition_key ++ pk.clustering_columns
   | none => []) ++
  (match t.options with
   | some o => o.clustering_order.map Prod.fst
   | none => [])

theorem primaryKey_error_first {pk : CqlPrimaryKeyP} {ks : Option CqlIdentifier}
    {cols : List CqlColumnR} {r : CqlIdentifier}
    (h : (pk.partition_key ++ pk.clustering_columns).find?
        (fun x => (lookupColumnRef cols ks x).isNone) = some r) :
    pk.referenceTypes ks cols = .error (contextualizedIdentifier none r ks) := by
  rcases find?_append_cases h with hp | ⟨hp, hc⟩
  · have := resolveColumnRefs_error_first cols ks hp
    simp [CqlPrimaryKeyP.referenceTypes, this]
  · obtain ⟨l, hl⟩ := resolveColumnRefs_ok_of_none cols ks hp
    have := resolveColumnRefs_error_first cols ks hc
    simp [CqlPrimaryKeyP.referenceTypes, hl, this]

theorem primaryKey_ok_of_none {pk : CqlPrimaryKeyP} {ks : Option CqlIdentifier}
    {cols : List CqlColumnR}
    (h : (pk.partition_key ++ pk.clustering_columns).find?
        (fun x => (lookupColumnRef cols ks x).isNone) = none) :
    ∃ l, pk.referenceTypes ks cols = .ok l := by
  rw [List.find?_eq_none] at h
  have hp : pk.partition_key.find?
      (fun x => (lookupColumnRef cols ks x).isNone) = none :=
    List.find?_eq_none.mpr (fun y hy => h y (by simp [hy]))
  have hc : pk.clustering_columns.find?
      (fun x => (lookupColumnRef cols ks x).isNone) = none :=
    List.find?_eq_none.mpr (fun y hy => h y (by simp [hy]))
  obtain ⟨l₁, hl₁⟩ := resolveColumnRefs_ok_of_none cols ks hp
  obtain ⟨l₂, hl₂⟩ := resolveColumnRefs_ok_of_none cols ks hc
  exact ⟨⟨l₁, l₂⟩, by simp [CqlPrimaryKeyP.referenceTypes, hl₁, hl₂]⟩

theorem tableOptions_error_first {o : CqlTableOptionsP}
    {ks : Option CqlIdentifier} {cols : List CqlColumnR} {r : CqlIdentifier}
    (h : (o.clustering_order.map Prod.fst).find?
        (fun x => (lookupColumnRef cols ks x).isNone) = some r) :
    o.referenceTypes ks cols = .error (contextualizedIdentifier none r ks) := by
  have := resolveOrderRefs_error_first cols ks h
  simp [CqlTableOptionsP.referenceTypes, this]

/-! ## Claim theorems: the resolution pass -/

/-- C1: resolving a `UserDefined` type reference against a context of
already resolved statements succeeds exactly when the context contains a
`CreateUserDefinedType` statement whose contextualized qualified name
equals the contextualized qualified name of the reference; when no such
prior statement exists, resolution fails and returns the reference's
contextualized qualified identifier. -/
theorem claim1_udt_lookup (udt : CqlIdentifier) (ks : Option CqlIdentifier)
    (ctx : List RStatement) :
    ((∃ d, CqlStatement.CreateUserDefinedType d ∈ ctx ∧
        udtDefMatches udt ks (.CreateUserDefinedType d) = true) ↔
      ∃ r, CqlType.referenceTypes (.UserDefined udt) ks ctx = .ok r)
    ∧ ((∀ d, CqlStatement.CreateUserDefinedType d ∈ ctx →
        udtDefMatches udt ks (.CreateUserDefinedType d) = false) →
      CqlType.referenceTypes (.UserDefined udt) ks ctx =
        .error (contextualizedIdentifier none udt ks)) := by
  constructor
  · constructor
    · rintro ⟨d, hmem, hp⟩
      have hs : (ctx.find? (udtDefMatches udt ks)).isSome := by
        rw [List.find?_isSome]
        exact ⟨_, hmem, hp⟩
      obtain ⟨s, hfind⟩ := Option.isSome_iff_exists.mp hs
      have hps := List.find?_some hfind
      cases s with
      | CreateTable t => simp [udtDefMatches] at hps
      | CreateUserDefinedType d2 =>
        exact ⟨.UserDefined d2, by simp [CqlType.referenceTypes, hfind]⟩
    · rintro ⟨r, hr⟩
      cases hfind : ctx.find? (udtDefMatches udt ks) with
      | none => simp [CqlType.referenceTypes, hfind] at hr
      | some s =>
        have hps := List.find?_some hfind
        have hmem := List.mem_of_find?_eq_some hfind
        cases s with
        | CreateTable t => simp [udtDefMatches] at hps
        | CreateUserDefinedType d => exact ⟨d, hmem, hps⟩
  · intro h
    refine userDefined_resolution_error ?_
    intro s hs
    cases s with
    | CreateTable t => simp [udtDefMatches]
    | CreateUserDefinedType d => exact h d hs

/-- C1 witness: with an empty context the reference `t` is unresolved and
resolution returns its contextualized qualified identifier; with a context
holding a matching definition it succeeds. -/
theorem claim1_witness :
    CqlType.referenceTypes (.UserDefined (.Unquoted "t")) none [] =
      .error (contextualizedIdentifier none (.Unquoted "t") none)
    ∧ ∃ r, CqlType.referenceTypes (.UserDefined (.Unquoted "T")) none
        [.CreateUserDefinedType (.mk false ⟨none, .Unquoted "t"⟩ [])] = .ok r :=
  ⟨(claim1_udt_lookup (.Unquoted "t") none []).2 (by intro d h; simp at h),
   (claim1_udt_lookup (.Unquoted "T") none
      [.CreateUserDefinedType (.mk false ⟨none, .Unquoted "t"⟩ [])]).1.mp
    ⟨.mk false ⟨none, .Unquoted "t"⟩ [], by simp, by decide⟩⟩

/-- C3: identifier equality compares case-insensitively whenever at least
one side is unquoted, and byte-for-byte when both sides are quoted. -/
theorem claim3_identifier_equality (s o : String) :
    (identEq (.Unquoted s) (.Unquoted o) = true ↔ asciiFold s.data = asciiFold o.data)
    ∧ (identEq (.Unquoted s) (.Quoted o) = true ↔ asciiFold s.data = asciiFold o.data)
    ∧ (identEq (.Quoted s) (.Unquoted o) = true ↔ asciiFold s.data = asciiFold o.data)
    ∧ (identEq (.Quoted s) (.Quoted o) = true ↔ s = o) := by
  refine ⟨?_, ?_, ?_, ?_⟩
  · simpa [identEq] using eqIgnoreAsciiCase_iff s.data o.data
  · simpa [identEq] using eqIgnoreAsciiCase_iff s.data o.data
  · simpa [identEq] using eqIgnoreAsciiCase_iff s.data o.data
  · simp [identEq]

/-- C3 witness: `Abc` and `aBC` compare equal across the unquoted/quoted
pairing, and unequal in the quoted/quoted pairing. -/
theorem claim3_witness :
    identEq (.Unquoted "Abc") (.Quoted "aBC") = true
    ∧ identEq (.Quoted "Abc") (.Quoted "aBC") = false :=
  ⟨((claim3_identifier_equality "Abc" "aBC").2.1).mpr (by decide), by decide⟩

/-- C5: the contextualization rule: an entity's own keyspace wins,
otherwise the ambient keyspace is substituted; the contextualized
qualified identifier pairs that keyspace with the entity's own name; and
the same rule is used verbatim at the UDT-reference lookup, at the column
lookup, and when a UDT statement resolves its fields. -/
theorem claim5_contextualization :
    (∀ own ambient k, own = some k →
      contextualizedKeyspace own ambient = some k)
    ∧ (∀ ambient, contextualizedKeyspace none ambient = ambient)
    ∧ (∀ own name ambient, contextualizedIdentifier own name ambient =
        ⟨contextualizedKeyspace own ambient, name⟩)
    ∧ (∀ d udt ks, udtDefMatches udt ks (.CreateUserDefinedType d) =
        qidEq (contextualizedIdentifier d.name.keyspace d.name.name ks)
          (contextualizedIdentifier none udt ks))
    ∧ (∀ cols ks ref, lookupColumnRef cols ks ref =
        cols.find? fun c => qidEq (contextualizedIdentifier none c.name ks)
          (contextualizedIdentifier none ref ks))
    ∧ (∀ u amb, udtCtxKeyspace u amb =
        contextualizedKeyspace u.name.keyspace amb) := by
  refine ⟨?_, fun _ => rfl, fun _ _ _ => rfl, fun _ _ _ => rfl,
    fun _ _ _ => rfl, fun u amb => rfl⟩
  intro own ambient k h
  subst h
  rfl

/-- C5 witness: an explicitly qualified name keeps its own keyspace
regardless of the ambient one; a bare name inherits the ambient one. -/
theorem claim5_witness :
    contextualizedKeyspace (some (.Unquoted "ks2")) (some (.Unquoted "ks1")) =
      some (.Unquoted "ks2")
    ∧ contextualizedKeyspace none (some (.Unquoted "ks1")) =
      some (.Unquoted "ks1") :=
  ⟨claim5_contextualization.1 (some (.Unquoted "ks2"))
      (some (.Unquoted "ks1")) (.Unquoted "ks2") rfl,
   claim5_contextualization.2.1 (some (.Unquoted "ks1"))⟩

/-- C6: a type tree without `UserDefined` leaves resolves successfully in
every keyspace and context, to its structural image: scalars map to
themselves and each wrapper is rebuilt around its recursively resolved
children. -/
theorem claim6_udt_free_identity (t : CqlType CqlIdentifier)
    (ks : Option CqlIdentifier) (ctx : List RStatement)
    (h : noUdt t = true) :
    ∃ r, retypeQ t = some r ∧ CqlType.referenceTypes t ks ctx = .ok r :=
  noUdt_resolves t ks ctx h

/-- C6 witness: `FROZEN<MAP<TEXT,LIST<INT>>>` resolves to the structurally
identical resolved tree. -/
theorem claim6_witness :
    noUdt (.FROZEN (.MAP .TEXT (.LIST .INT))) = true
    ∧ (∃ r, retypeQ (.FROZEN (.MAP .TEXT (.LIST .INT))) = some r ∧
        CqlType.referenceTypes (.FROZEN (.MAP .TEXT (.LIST .INT))) none [] = .ok r)
    ∧ CqlType.referenceTypes (.FROZEN (.MAP .TEXT (.LIST .INT))) none [] =
      .ok (.FROZEN (.MAP .TEXT (.LIST .INT))) :=
  ⟨rfl, claim6_udt_free_identity (.FROZEN (.MAP .TEXT (.LIST .INT))) none [] rfl,
   rfl⟩

/-- C7: when a table's columns have resolved, every primary-key and
clustering-order reference is looked up by contextualized-identifier
equality in the just-resolved column list, and the first reference that
matches no column makes the table's resolution return an error carrying
exactly that reference's contextualized qualified identifier (so no
resolved table is produced). -/
theorem claim7_column_reference_errors (t : CqlTableP)
    (amb : Option CqlIdentifier) (ctx : List RStatement)
    (cols : List CqlColumnR) (r : CqlIdentifier)
    (hcols : resolveColumns t.columns
        (contextualizedKeyspace t.name.keyspace amb) ctx = .ok cols)
    (hbad : (tableRefIdents t).find?
      (fun x => (lookupColumnRef cols
          (contextualizedKeyspace t.name.keyspace amb) x).isNone) = some r) :
    t.referenceTypes amb ctx =
      .error (contextualizedIdentifier none r
        (contextualizedKeyspace t.name.keyspace amb)) := by
  unfold tableRefIdents at hbad
  simp only [CqlTableP.referenceTypes]
  rw [hcols]
  cases hpk : t.primary_key with
  | some pk =>
    rw [hpk] at hbad
    rcases find?_append_cases hbad with hp | ⟨hp, hopt⟩
    · simp [primaryKey_error_first hp]
    · obtain ⟨l, hl⟩ := primaryKey_ok_of_none hp
      cases hopts : t.options with
      | some o =>
        rw [hopts] at hopt
        simp [hl, tableOptions_error_first hopt]
      | none => rw [hopts] at hopt; simp at hopt
  | none =>
    rw [hpk] at hbad
    simp only [List.nil_append] at hbad
    cases hopts : t.options with
    | some o =>
      rw [hopts] at hbad
      simp [tableOptions_error_first hbad]
    | none => rw [hopts] at hbad; simp at hbad

/-- C7 witness: a table `t(a int)` with `PRIMARY KEY (z)` fails resolution
with the contextualized identifier of `z`. -/
theorem claim7_witness :
    (CqlTableP.referenceTypes
      ⟨false, ⟨none, .Unquoted "t"⟩,
        [⟨.Unquoted "a", .INT, false, false⟩],
        some ⟨[.Unquoted "z"], []⟩, none⟩ none []) =
      .error (contextualizedIdentifier none (.Unquoted "z") none) :=
  claim7_column_reference_errors
    ⟨false, ⟨none, .Unquoted "t"⟩, [⟨.Unquoted "a", .INT, false, false⟩],
      some ⟨[.Unquoted "z"], []⟩, none⟩
    none [] [⟨.Unquoted "a", .INT, false, false⟩] (.Unquoted "z")
    rfl (by decide)

/-- C8: the UDT being resolved is not visible to the resolution of its own
fields: when a field's type references the statement's own contextualized
qualified name and no statement of the context (the previously resolved
statements) matches that contextualized name, `reference_types` fails with
that contextualized qualified identifier. -/
theorem claim8_no_self_reference (u : ParsedCqlUserDefinedType)
    (amb : Option CqlIdentifier) (ctx : List RStatement)
    (pre post : List (CqlIdentifier × CqlType CqlIdentifier))
    (fname r : CqlIdentifier)
    (hfields : u.fields = pre ++ (fname, .UserDefined r) :: post)
    (hpre : ∀ p ∈ pre, ∃ t,
      CqlType.referenceTypes p.2 (udtCtxKeyspace u amb) ctx = .ok t)
    (hself : qidEq (contextualizedIdentifier none r (udtCtxKeyspace u amb))
        (contextualizedIdentifier u.name.keyspace u.name.name
          (udtCtxKeyspace u amb)) = true)
    (hnomatch : ∀ s ∈ ctx, udtDefMatches r (udtCtxKeyspace u amb) s = false) :
    u.referenceTypes amb ctx =
      .error (contextualizedIdentifier none r (udtCtxKeyspace u amb)) := by
  have herr := userDefined_resolution_error hnomatch
  have hall := @resolveFields_error_of_front pre post fname (.UserDefined r)
    (udtCtxKeyspace u amb) ctx
    (contextualizedIdentifier none r (udtCtxKeyspace u amb)) hpre herr
  unfold ParsedCqlUserDefinedType.referenceTypes
  rw [hfields, hall]

/-- C8 witness: `CREATE TYPE node (child node)` with no prior statements
fails with the contextualized identifier of `node`. -/
theorem claim8_witness :
    (ParsedCqlUserDefinedType.referenceTypes
      ⟨false, ⟨none, .Unquoted "node"⟩,
        [(.Unquoted "child", .UserDefined (.Unquoted "node"))]⟩ none []) =
      .error (contextualizedIdentifier none (.Unquoted "node") none) :=
  claim8_no_self_reference
    ⟨false, ⟨none, .Unquoted "node"⟩,
      [(.Unquoted "child", .UserDefined (.Unquoted "node"))]⟩
    none [] [] [] (.Unquoted "child") (.Unquoted "node")
    rfl (by intro p h; simp at h) (by decide) (by intro s h; simp at h)

/-- C10: the identifier equality is not transitive, hence not an
equivalence relation: `Quoted "A" == Unquoted "a"` and
`Unquoted "a" == Quoted "a"` hold by case-insensitive mixed comparison,
yet `Quoted "A" == Quoted "a"` fails by byte-exact quoted comparison. -/
theorem claim10_equality_not_transitive :
    identEq (.Quoted "A") (.Unquoted "a") = true
    ∧ identEq (.Unquoted "a") (.Quoted "a") = true
    ∧ identEq (.Quoted "A") (.Quoted "a") = false
    ∧ ¬ (∀ a b c : CqlIdentifier,
        identEq a b = true → identEq b c = true → identEq a c = true) := by
  refine ⟨by decide, by decide, by decide, fun h => ?_⟩
  have := h (.Quoted "A") (.Unquoted "a") (.Quoted "a") (by decide) (by decide)
  exact absurd this (by decide)

/-! ## Parse results

nom's `IResult` distinguishes recoverable errors (`Err::Error`, tried-and-
abandoned by `alt`/`opt`) from `Err::Failure` (propagated).  Rust panics
(`unimplemented!`, `unwrap` on `None`) are modelled as a further outcome.
`out` is the artifact of the fuel used to model loops and recursion; the
termination theorems show it is never reached when the fuel exceeds the
input length. -/

inductive PRes (α : Type) where
  | ok (rest : List Char) (val : α)
  | err
  | fail
  | panic
  | out
deriving Repr

/-- Sequencing: the `?` operator on nom results. -/
def PRes.bind : PRes α → (List Char → α → PRes β) → PRes β
  | .ok rest v, k => k rest v
  | .err, _ => .err
  | .fail, _ => .fail
  | .panic, _ => .panic
  | .out, _ => .out

/-- Alternation: nom `alt` tries the next branch only on `Err::Error`. -/
def PRes.orElse : PRes α → (Unit → PRes α) → PRes α
  | .err, k => k ()
  | r, _ => r

/-- nom `opt`: recover from `Err::Error` with `None` and the untouched
input; everything else propagates. -/
def optP (r : PRes α) (orig : List Char) : PRes (Option α) :=
  match r with
  | .ok rest v => .ok rest (some v)
  | .err => .ok orig none
  | .fail => .fail
  | .panic => .panic
  | .out => .out

theorem PRes.bind_ok {α β : Type} {r : PRes α} {k : List Char → α → PRes β}
    {rest : List Char} {w : β} (h : PRes.bind r k = .ok rest w) :
    ∃ i v, r = .ok i v ∧ k i v = .ok rest w := by
  cases r with
  | ok i v => exact ⟨i, v, rfl, h⟩
  | err => simp [PRes.bind] at h
  | fail => simp [PRes.bind] at h
  | panic => simp [PRes.bind] at h
  | out => simp [PRes.bind] at h

theorem PRes.bind_out {α β : Type} {r : PRes α} {k : List Char → α → PRes β}
    (h : PRes.bind r k = .out) :
    r = .out ∨ ∃ i v, r = .ok i v ∧ k i v = .out := by
  cases r with
  | ok i v => exact Or.inr ⟨i, v, rfl, h⟩
  | err => simp [PRes.bind] at h
  | fail => simp [PRes.bind] at h
  | panic => simp [PRes.bind] at h
  | out => exact Or.inl rfl

theorem PRes.orElse_ok {α : Type} {r : PRes α} {k : Unit → PRes α}
    {rest : List Char} {v : α} (h : PRes.orElse r k = .ok rest v) :
    r = .ok rest v ∨ (r = .err ∧ k () = .ok rest v) := by
  cases r with
  | ok i w => exact Or.inl h
  | err => exact Or.inr ⟨rfl, h⟩
  | fail => simp [PRes.orElse] at h
  | panic => simp [PRes.orElse] at h
  | out => simp [PRes.orElse] at h

theorem PRes.orElse_out {α : Type} {r : PRes α} {k : Unit → PRes α}
    (h : PRes.orElse r k = .out) :
    r = .out ∨ (r = .err ∧ k () = .out) := by
  cases r with
  | ok i w => simp [PRes.orElse] at h
  | err => exact Or.inr ⟨rfl, h⟩
  | fail => simp [PRes.orElse] at h
  | panic => simp [PRes.orElse] at h
  | out => exact Or.inl rfl

theorem optP_ok {α : Type} {r : PRes α} {orig rest : List Char}
    {o : Option α} (h : optP r orig = .ok rest o) :
    (∃ v, r = .ok rest v ∧ o = some v) ∨ (r = .err ∧ rest = orig ∧ o = none) := by
  cases r with
  | ok i v =>
    simp [optP] at h
    exact Or.inl ⟨v, by simp [h.1], by simp [h.2]⟩
  | err =>
    simp [optP] at h
    exact Or.inr ⟨rfl, h.1.symm, h.2.symm⟩
  | fail => simp [optP] at h
  | panic => simp [optP] at h
  | out => simp [optP] at h

theorem optP_out {α : Type} {r : PRes α} {orig : List Char}
    (h : optP r orig = .out) : r = .out := by
  cases r <;> simp_all [optP]

/-! ## Parsing primitives (the nom toolkit, on `List Char`) -/

def isMultiSpace (c : Char) : Bool :=
  c == ' ' || c == '\t' || c == '\n' || c == '\r'

def isAlphaAscii (c : Char) : Bool :=
  ('a' ≤ c && c ≤ 'z') || ('A' ≤ c && c ≤ 'Z')

def isIdentTail (c : Char) : Bool :=
  isAlphaAscii c || ('0' ≤ c && c ≤ '9') || c == '_'

/-- `tag`: match a literal. -/
def tagP (lit input : List Char) : PRes (List Char) :=
  if lit.isPrefixOf input then .ok (input.drop lit.length) lit else .err

/-- `tag_no_case`: match a literal up to ASCII case. -/
def isPrefixOfNoCase : List Char → List Char → Bool
  | [], _ => true
  | _ :: _, [] => false
  | l :: lit, c :: input =>
    (toLowerAscii c == toLowerAscii l) && isPrefixOfNoCase lit input

def tagNoCaseP (lit input : List Char) : PRes (List Char) :=
  if isPrefixOfNoCase lit input then
    .ok (input.drop lit.length) (input.take lit.length)
  else .err

/-- `multispace0` never fails; it returns the remaining input. -/
def multispace0P (input : List Char) : List Char := input.dropWhile isMultiSpace

/-- `multispace1` requires at least one whitespace character. -/
def multispace1P (input : List Char) : PRes Unit :=
  match input with
  | [] => .err
  | c :: rest =>
    if isMultiSpace c then .ok (rest.dropWhile isMultiSpace) () else .err

/-- `take_while1`. -/
def takeWhile1P (p : Char → Bool) (input : List Char) : PRes (List Char) :=
  if (input.takeWhile p).length = 0 then .err
  else .ok (input.dropWhile p) (input.takeWhile p)

/-! Length lemmas for the primitives -/

theorem dropWhile_length_le (p : Char → Bool) (l : List Char) :
    (l.dropWhile p).length ≤ l.length := by
  induction l with
  | nil => simp [List.dropWhile]
  | cons a l ih =>
    by_cases h : p a <;> simp [List.dropWhile, h] <;> omega

theorem takeWhile_dropWhile_length (p : Char → Bool) (l : List Char) :
    (l.takeWhile p).length + (l.dropWhile p).length = l.length := by
  induction l with
  | nil => simp
  | cons a l ih =>
    cases h : p a <;> simp [List.takeWhile_cons, List.dropWhile_cons, h] <;> omega

theorem tagP_ok {lit input rest v : List Char}
    (h : tagP lit input = .ok rest v) :
    rest.length + lit.length = input.length := by
  unfold tagP at h
  split at h
  · next hp =>
    have hlen : lit.length ≤ input.length :=
      (List.isPrefixOf_iff_prefix.mp hp).length_le
    injection h with h1 h2
    subst h1
    simp [List.length_drop]
    omega
  · simp at h

theorem isPrefixOfNoCase_le :
    ∀ {lit input : List Char}, isPrefixOfNoCase lit input = true →
      lit.length ≤ input.length := by
  intro lit
  induction lit with
  | nil => intro input _; simp
  | cons l lit ih =>
    intro input h
    cases input with
    | nil => simp [isPrefixOfNoCase] at h
    | cons c input =>
      simp only [isPrefixOfNoCase, Bool.and_eq_true] at h
      have := ih h.2
      simp
      omega

theorem tagNoCaseP_ok {lit input rest v : List Char}
    (h : tagNoCaseP lit input = .ok rest v) :
    rest.length + lit.length = input.length := by
  unfold tagNoCaseP at h
  split at h
  · next hp =>
    have hlen := isPrefixOfNoCase_le hp
    injection h with h1 h2
    subst h1
    simp [List.length_drop]
    omega
  · simp at h

theorem multispace0P_le (input : List Char) :
    (multispace0P input).length ≤ input.length :=
  dropWhile_length_le _ _

theorem multispace1P_ok {input rest : List Char} {v : Unit}
    (h : multispace1P input = .ok rest v) : rest.length < input.length := by
  cases input with
  | nil => simp [multispace1P] at h
  | cons c tl =>
    simp only [multispace1P] at h
    split at h
    · injection h with h1 h2
      subst h1
      have := dropWhile_length_le isMultiSpace tl
      simp
      omega
    · simp at h

theorem takeWhile1P_ok {p : Char → Bool} {input rest v : List Char}
    (h : takeWhile1P p input = .ok rest v) : rest.length < input.length := by
  unfold takeWhile1P at h
  split at h
  · simp at h
  · next hne =>
    injection h with h1 h2
    subst h1
    have := takeWhile_dropWhile_length p input
    omega

/-! ## Identifier grammar (`src/parse/identifier.rs`, also
`src/lib.rs` lines 1197-1235; the two are identical)

Quoted identifiers scan to the next `"`; a doubled `""` continues the
scan, accumulating a literal `"`.  Unquoted identifiers require `alpha1`
followed by `take_while1` of alphanumerics or underscore. -/

/-- `take_until "\""`: split at the first quote character; the second
component starts with the quote.  `none` if no quote occurs. -/
def splitAtQuote : List Char → Option (List Char × List Char)
  | [] => none
  | c :: rest =>
    if c = '"' then some ([], c :: rest)
    else
      match splitAtQuote rest with
      | some (pre, post) => some (c :: pre, post)
      | none => none

theorem splitAtQuote_spec :
    ∀ {input pre post : List Char}, splitAtQuote input = some (pre, post) →
      input = pre ++ post ∧ ∃ rest, post = '"' :: rest := by
  intro input
  induction input with
  | nil => intro pre post h; simp [splitAtQuote] at h
  | cons c tl ih =>
    intro pre post h
    unfold splitAtQuote at h
    split at h
    · next hc =>
      injection h with h
      injection h with h1 h2
      subst h1; subst h2; subst hc
      exact ⟨rfl, tl, rfl⟩
    · next hc =>
      cases hs : splitAtQuote tl with
      | none => rw [hs] at h; simp at h
      | some pr =>
        obtain ⟨pre1, post1⟩ := pr
        rw [hs] at h
        injection h with h
        injection h with h1 h2
        obtain ⟨he, rest, hr⟩ := ih hs
        subst h1; subst h2
        exact ⟨by simp [he], rest, hr⟩

/-- The accumulate loop of `parse_quoted`: scan to a quote, consume it,
continue if another quote follows immediately (pushing a literal `"`). -/
def parseQuotedBody : Nat → List Char → List Char → PRes (List Char)
  | 0, _, _ => .out
  | fuel + 1, acc, input =>
    match splitAtQuote input with
    | none => .err
    | some (s, post) =>
      let i := post.drop 1
      if i.head? = some '"' then parseQuotedBody fuel (acc ++ s ++ ['"']) i
      else .ok i (acc ++ s)

theorem parseQuotedBody_len :
    ∀ {fuel : Nat} {acc input rest v : List Char},
      parseQuotedBody fuel acc input = .ok rest v →
      rest.length < input.length := by
  intro fuel
  induction fuel with
  | zero => intro acc input rest v h; simp [parseQuotedBody] at h
  | succ f ih =>
    intro acc input rest v h
    unfold parseQuotedBody at h
    cases hs : splitAtQuote input with
    | none => rw [hs] at h; simp at h
    | some pr =>
      obtain ⟨s, post⟩ := pr
      rw [hs] at h
      simp only at h
      obtain ⟨he, rest1, hr⟩ := splitAtQuote_spec hs
      have hlen : (post.drop 1).length < input.length := by
        subst he; subst hr
        simp [List.length_drop, List.length_append]
        omega
      split at h
      · exact lt_trans (ih h) hlen
      · injection h with h1 h2
        subst h1
        exact hlen

theorem parseQuotedBody_noout :
    ∀ {fuel : Nat} {acc input : List Char}, input.length < fuel →
      parseQuotedBody fuel acc input ≠ .out := by
  intro fuel
  induction fuel with
  | zero => intro acc input h; omega
  | succ f ih =>
    intro acc input hle h
    unfold parseQuotedBody at h
    cases hs : splitAtQuote input with
    | none => rw [hs] at h; simp at h
    | some pr =>
      obtain ⟨s, post⟩ := pr
      rw [hs] at h
      simp only at h
      obtain ⟨he, rest1, hr⟩ := splitAtQuote_spec hs
      have hlen : (post.drop 1).length < input.length := by
        subst he; subst hr
        simp [List.length_drop, List.length_append]
        omega
      split at h
      · exact ih (by omega) h
      · simp at h

/-- `CqlIdentifier::parse`: `alt((parse_quoted, parse_unquoted))`. -/
def parseIdentF (fuel : Nat) (input : List Char) : PRes CqlIdentifier :=
  PRes.orElse
    (PRes.bind (tagP ['"'] input) fun i _ =>
      PRes.bind (parseQuotedBody fuel [] i) fun rest acc =>
      .ok rest (.Quoted (String.mk acc)))
    fun _ =>
      PRes.bind (takeWhile1P isAlphaAscii input) fun i1 first =>
      PRes.bind (takeWhile1P isIdentTail i1) fun i2 rest =>
      .ok i2 (.Unquoted (String.mk (first ++ rest)))

theorem parseIdentF_len {fuel : Nat} {input rest : List Char}
    {v : CqlIdentifier} (h : parseIdentF fuel input = .ok rest v) :
    rest.length < input.length := by
  unfold parseIdentF at h
  rcases PRes.orElse_ok h with hq | ⟨_, hu⟩
  · rcases PRes.bind_ok hq with ⟨i, w, ht, hq⟩
    rcases PRes.bind_ok hq with ⟨i2, acc, hb, hq⟩
    have h1 := tagP_ok ht
    have h2 := parseQuotedBody_len hb
    injection hq with hq1 hq2
    subst hq1
    simp at h1
    omega
  · rcases PRes.bind_ok hu with ⟨i1, first, h1, hu⟩
    rcases PRes.bind_ok hu with ⟨i2, r2, h2, hu⟩
    have l1 := takeWhile1P_ok h1
    have l2 := takeWhile1P_ok h2
    injection hu with hu1 hu2
    subst hu1
    omega

theorem parseIdentF_noout {fuel : Nat} {input : List Char}
    (hf : input.length < fuel) : parseIdentF fuel input ≠ .out := by
  intro h
  unfold parseIdentF at h
  rcases PRes.orElse_out h with hq | ⟨_, hu⟩
  · rcases PRes.bind_out hq with ht | ⟨i, w, ht, hq⟩
    · simp [tagP] at ht
      split at ht <;> simp_all
    · rcases PRes.bind_out hq with hb | ⟨i2, acc, hb, hq⟩
      · have h1 := tagP_ok ht
        exact parseQuotedBody_noout (by simp at h1; omega) hb
      · simp at hq
  · rcases PRes.bind_out hu with h1 | ⟨i1, first, h1, hu⟩
    · unfold takeWhile1P at h1
      split at h1 <;> simp_all
    · rcases PRes.bind_out hu with h2 | ⟨i2, r2, h2, hu⟩
      · unfold takeWhile1P at h2
        split at h2 <;> simp_all
      · simp at hu

/-! ## Separated lists (nom `separated_list0` / `separated_list1` with a
`","` separator, as used throughout both parser stacks)

After the first element, the loop repeatedly tries the separator and then
the next element; failure of either ends the loop, backtracking to before
the separator. -/

def sepLoopF (elem : List Char → PRes α) : Nat → List Char → List α →
    PRes (List α)
  | 0, _, _ => .out
  | fuel + 1, input, acc =>
    match tagP [','] input with
    | .ok i1 _ =>
      match elem i1 with
      | .ok i2 v => sepLoopF elem fuel i2 (acc ++ [v])
      | .err => .ok input acc
      | .fail => .fail
      | .panic => .panic
      | .out => .out
    | _ => .ok input acc

def sepList1F (elem : List Char → PRes α) (fuel : Nat) (input : List Char) :
    PRes (List α) :=
  match elem input with
  | .ok i1 v => sepLoopF elem fuel i1 [v]
  | .err => .err
  | .fail => .fail
  | .panic => .panic
  | .out => .out

def sepList0F (elem : List Char → PRes α) (fuel : Nat) (input : List Char) :
    PRes (List α) :=
  match elem input with
  | .ok i1 v => sepLoopF elem fuel i1 [v]
  | .err => .ok input []
  | .fail => .fail
  | .panic => .panic
  | .out => .out

theorem sepLoopF_len {α : Type} {elem : List Char → PRes α}
    (helem : ∀ i r v, elem i = .ok r v → r.length ≤ i.length) :
    ∀ {fuel : Nat} {input : List Char} {acc : List α} {rest : List Char}
      {vs : List α}, sepLoopF elem fuel input acc = .ok rest vs →
      rest.length ≤ input.length := by
  intro fuel
  induction fuel with
  | zero => intro input acc rest vs h; simp [sepLoopF] at h
  | succ f ih =>
    intro input acc rest vs h
    unfold sepLoopF at h
    cases ht : tagP [','] input with
    | ok i1 w =>
      simp only [ht] at h
      cases he : elem i1 with
      | ok i2 v =>
        simp only [he] at h
        have l1 := tagP_ok ht
        have l2 := helem _ _ _ he
        have l3 := ih h
        simp at l1
        omega
      | err => simp only [he] at h; injection h with h1 h2; subst h1; omega
      | fail => simp only [he] at h; simp at h
      | panic => simp only [he] at h; simp at h
      | out => simp only [he] at h; simp at h
    | err => simp only [ht] at h; injection h with h1 h2; subst h1; omega
    | fail => simp only [ht] at h; injection h with h1 h2; subst h1; omega
    | panic => simp only [ht] at h; injection h with h1 h2; subst h1; omega
    | out => simp only [ht] at h; injection h with h1 h2; subst h1; omega

theorem sepLoopF_noout {α : Type} {elem : List Char → PRes α} (n : Nat)
    (helem : ∀ i r v, elem i = .ok r v → r.length ≤ i.length)
    (hout : ∀ i : List Char, i.length ≤ n → elem i ≠ .out) :
    ∀ {fuel : Nat} {input : List Char} {acc : List α},
      input.length ≤ n → input.length < fuel →
      sepLoopF elem fuel input acc ≠ .out := by
  intro fuel
  induction fuel with
  | zero => intro input acc _ h; omega
  | succ f ih =>
    intro input acc hn hf h
    unfold sepLoopF at h
    cases ht : tagP [','] input with
    | ok i1 w =>
      simp only [ht] at h
      have l1 := tagP_ok ht
      simp at l1
      cases he : elem i1 with
      | ok i2 v =>
        simp only [he] at h
        have l2 := helem _ _ _ he
        exact ih (by omega) (by omega) h
      | err => simp only [he] at h; simp at h
      | fail => simp only [he] at h; simp at h
      | panic => simp only [he] at h; simp at h
      | out => exact hout i1 (by omega) he
    | err => simp only [ht] at h; simp at h
    | fail => simp [tagP] at ht; split at ht <;> simp_all
    | panic => simp [tagP] at ht; split at ht <;> simp_all
    | out => simp [tagP] at ht; split at ht <;> simp_all

theorem sepList1F_len {α : Type} {elem : List Char → PRes α}
    (helem : ∀ i r v, elem i = .ok r v → r.length ≤ i.length)
    {fuel : Nat} {input rest : List Char} {vs : List α}
    (h : sepList1F elem fuel input = .ok rest vs) :
    rest.length ≤ input.length := by
  unfold sepList1F at h
  cases he : elem input with
  | ok i1 v =>
    simp only [he] at h
    have := helem _ _ _ he
    have := sepLoopF_len helem h
    omega
  | err => simp only [he] at h; simp at h
  | fail => simp only [he] at h; simp at h
  | panic => simp only [he] at h; simp at h
  | out => simp only [he] at h; simp at h

theorem sepList1F_noout {α : Type} {elem : List Char → PRes α} (n : Nat)
    (helem : ∀ i r v, elem i = .ok r v → r.length ≤ i.length)
    (hout : ∀ i : List Char, i.length ≤ n → elem i ≠ .out)
    {fuel : Nat} {input : List Char}
    (hn : input.length ≤ n) (hf : input.length < fuel) :
    sepList1F elem fuel input ≠ .out := by
  intro h
  unfold sepList1F at h
  cases he : elem input with
  | ok i1 v =>
    simp only [he] at h
    have := helem _ _ _ he
    exact sepLoopF_noout n helem hout (by omega) (by omega) h
  | err => simp only [he] at h; simp at h
  | fail => simp only [he] at h; simp at h
  | panic => simp only [he] at h; simp at h
  | out => exact hout input hn he

theorem sepList0F_len {α : Type} {elem : List Char → PRes α}
    (helem : ∀ i r v, elem i = .ok r v → r.length ≤ i.length)
    {fuel : Nat} {input rest : List Char} {vs : List α}
    (h : sepList0F elem fuel input = .ok rest vs) :
    rest.length ≤ input.length := by
  unfold sepList0F at h
  cases he : elem input with
  | ok i1 v =>
    simp only [he] at h
    have := helem _ _ _ he
    have := sepLoopF_len helem h
    omega
  | err => simp only [he] at h; injection h with h1 h2; subst h1; omega
  | fail => simp only [he] at h; simp at h
  | panic => simp only [he] at h; simp at h
  | out => simp only [he] at h; simp at h

theorem sepList0F_noout {α : Type} {elem : List Char → PRes α} (n : Nat)
    (helem : ∀ i r v, elem i = .ok r v → r.length ≤ i.length)
    (hout : ∀ i : List Char, i.length ≤ n → elem i ≠ .out)
    {fuel : Nat} {input : List Char}
    (hn : input.length ≤ n) (hf : input.length < fuel) :
    sepList0F elem fuel input ≠ .out := by
  intro h
  unfold sepList0F at h
  cases he : elem input with
  | ok i1 v =>
    simp only [he] at h
    have := helem _ _ _ he
    exact sepLoopF_noout n helem hout (by omega) (by omega) h
  | err => simp only [he] at h; simp at h
  | fail => simp only [he] at h; simp at h
  | panic => simp only [he] at h; simp at h
  | out => exact hout input hn he

/-! ## Keyword alternatives -/

/-- An `alt` of `map(tag_no_case(...), |_| value)` branches, tried in
order. -/
def altTags {α : Type} : List (List Char × α) → List Char → PRes α
  | [], _ => .err
  | (lit, v) :: rest, input =>
    match tagNoCaseP lit input with
    | .ok i _ => .ok i v
    | _ => altTags rest input

theorem altTags_len {α : Type} :
    ∀ {cands : List (List Char × α)} {input rest : List Char} {v : α},
      altTags cands input = .ok rest v → rest.length ≤ input.length := by
  intro cands
  induction cands with
  | nil => intro input rest v h; simp [altTags] at h
  | cons c cs ih =>
    intro input rest v h
    obtain ⟨lit, w⟩ := c
    unfold altTags at h
    cases ht : tagNoCaseP lit input with
    | ok i u =>
      simp only [ht] at h
      injection h with h1 h2
      subst h1
      have := tagNoCaseP_ok ht
      omega
    | err => simp only [ht] at h; exact ih h
    | fail => simp [tagNoCaseP] at ht; split at ht <;> simp_all
    | panic => simp [tagNoCaseP] at ht; split at ht <;> simp_all
    | out => simp [tagNoCaseP] at ht; split at ht <;> simp_all

theorem altTags_noout {α : Type} :
    ∀ {cands : List (List Char × α)} {input : List Char},
      altTags cands input ≠ .out := by
  intro cands
  induction cands with
  | nil => intro input h; simp [altTags] at h
  | cons c cs ih =>
    intro input h
    obtain ⟨lit, w⟩ := c
    unfold altTags at h
    cases ht : tagNoCaseP lit input with
    | ok i u => simp only [ht] at h; simp at h
    | err => simp only [ht] at h; exact ih h
    | fail => simp [tagNoCaseP] at ht; split at ht <;> simp_all
    | panic => simp [tagNoCaseP] at ht; split at ht <;> simp_all
    | out => simp [tagNoCaseP] at ht; split at ht <;> simp_all

/-! ## Modular type grammar (`src/parse/cql_type.rs` lines 12-81)

`angle_bracket(kw, inner)` (`src/utils.rs` lines 179-198) parses the
keyword, optional whitespace, `<`, optional whitespace, the inner parser,
optional whitespace and `>`. -/

def angleOpen (kw input : List Char) : PRes Unit :=
  match tagNoCaseP kw input with
  | .ok i1 _ =>
    match tagP ['<'] (multispace0P i1) with
    | .ok i3 _ => .ok (multispace0P i3) ()
    | _ => .err
  | _ => .err

def angleClose (input : List Char) : PRes Unit :=
  match tagP ['>'] (multispace0P input) with
  | .ok i _ => .ok i ()
  | _ => .err

theorem angleOpen_ok {kw input rest : List Char} {v : Unit}
    (h : angleOpen kw input = .ok rest v) :
    rest.length + kw.length + 1 ≤ input.length := by
  unfold angleOpen at h
  cases h1 : tagNoCaseP kw input with
  | ok i1 w =>
    simp only [h1] at h
    cases h2 : tagP ['<'] (multispace0P i1) with
    | ok i3 u =>
      simp only [h2] at h
      injection h with hr hv
      subst hr
      have l1 := tagNoCaseP_ok h1
      have l2 := tagP_ok h2
      have l3 := multispace0P_le i1
      have l4 := multispace0P_le i3
      simp at l2
      omega
    | err => simp only [h2] at h; simp at h
    | fail => simp [tagP] at h2; split at h2 <;> simp_all
    | panic => simp [tagP] at h2; split at h2 <;> simp_all
    | out => simp [tagP] at h2; split at h2 <;> simp_all
  | err => simp only [h1] at h; simp at h
  | fail => simp [tagNoCaseP] at h1; split at h1 <;> simp_all
  | panic => simp [tagNoCaseP] at h1; split at h1 <;> simp_all
  | out => simp [tagNoCaseP] at h1; split at h1 <;> simp_all

theorem angleOpen_noout {kw input : List Char} : angleOpen kw input ≠ .out := by
  intro h
  unfold angleOpen at h
  cases h1 : tagNoCaseP kw input with
  | ok i1 w =>
    simp only [h1] at h
    cases h2 : tagP ['<'] (multispace0P i1) with
    | ok i3 u => simp only [h2] at h; simp at h
    | err => simp only [h2] at h; simp at h
    | fail => simp [tagP] at h2; split at h2 <;> simp_all
    | panic => simp [tagP] at h2; split at h2 <;> simp_all
    | out => simp [tagP] at h2; split at h2 <;> simp_all
  | err => simp only [h1] at h; simp at h
  | fail => simp [tagNoCaseP] at h1; split at h1 <;> simp_all
  | panic => simp [tagNoCaseP] at h1; split at h1 <;> simp_all
  | out => simp [tagNoCaseP] at h1; split at h1 <;> simp_all

theorem angleClose_ok {input rest : List Char} {v : Unit}
    (h : angleClose input = .ok rest v) : rest.length ≤ input.length := by
  unfold angleClose at h
  cases h1 : tagP ['>'] (multispace0P input) with
  | ok i w =>
    simp only [h1] at h
    injection h with hr hv
    subst hr
    have l1 := tagP_ok h1
    have l2 := multispace0P_le input
    simp at l1
    omega
  | err => simp only [h1] at h; simp at h
  | fail => simp [tagP] at h1; split at h1 <;> simp_all
  | panic => simp [tagP] at h1; split at h1 <;> simp_all
  | out => simp [tagP] at h1; split at h1 <;> simp_all

theorem angleClose_noout {input : List Char} : angleClose input ≠ .out := by
  intro h
  unfold angleClose at h
  cases h1 : tagP ['>'] (multispace0P input) with
  | ok i w => simp only [h1] at h; simp at h
  | err => simp only [h1] at h; simp at h
  | fail => simp [tagP] at h1; split at h1 <;> simp_all
  | panic => simp [tagP] at h1; split at h1 <;> simp_all
  | out => simp [tagP] at h1; split at h1 <;> simp_all

/-- The scalar keyword alternatives of the modular type grammar, in source
order (`src/parse/cql_type.rs` lines 17-37; note `TIMESTAMP` and
`TIMEUUID` are tried before `TIME`). -/
def scalarTagsM : List (List Char × CqlType CqlIdentifier) :=
  [("ASCII".data, .ASCII), ("BIGINT".data, .BIGINT), ("BLOB".data, .BLOB),
   ("BOOLEAN".data, .BOOLEAN), ("COUNTER".data, .COUNTER),
   ("DATE".data, .DATE), ("DECIMAL".data, .DECIMAL),
   ("DOUBLE".data, .DOUBLE), ("DURATION".data, .DURATION),
   ("FLOAT".data, .FLOAT), ("INET".data, .INET), ("INT".data, .INT),
   ("SMALLINT".data, .SMALLINT), ("TEXT".data, .TEXT),
   ("TIMESTAMP".data, .TIMESTAMP), ("TIMEUUID".data, .TIMEUUID),
   ("TIME".data, .TIME), ("TINYINT".data, .TINYINT), ("UUID".data, .UUID),
   ("VARCHAR".data, .VARCHAR), ("VARINT".data, .VARINT)]

/-- `CqlType::parse` of the modular grammar: scalars first, then the
bracketed `FROZEN`/`MAP`/`SET`/`LIST`/`TUPLE` forms (`MAP` uses
`seperated(parse, ",", parse)`, `TUPLE` uses
`separated_list1(",", space0_around(parse))`), finally a bare identifier
as a user-defined-type reference. -/
def parseCqlTypeM : Nat → List Char → PRes (CqlType CqlIdentifier)
  | 0, _ => .out
  | f + 1, input =>
    PRes.orElse (altTags scalarTagsM input) fun _ =>
    PRes.orElse
      (PRes.bind (angleOpen "FROZEN".data input) fun i1 _ =>
        PRes.bind (parseCqlTypeM f i1) fun i2 t =>
        PRes.bind (angleClose i2) fun i3 _ => .ok i3 (.FROZEN t)) fun _ =>
    PRes.orElse
      (PRes.bind (angleOpen "MAP".data input) fun i1 _ =>
        PRes.bind (parseCqlTypeM f i1) fun i2 k =>
        PRes.bind (tagP [','] (multispace0P i2)) fun i3 _ =>
        PRes.bind (parseCqlTypeM f (multispace0P i3)) fun i4 v =>
        PRes.bind (angleClose i4) fun i5 _ => .ok i5 (.MAP k v)) fun _ =>
    PRes.orElse
      (PRes.bind (angleOpen "SET".data input) fun i1 _ =>
        PRes.bind (parseCqlTypeM f i1) fun i2 t =>
        PRes.bind (angleClose i2) fun i3 _ => .ok i3 (.SET t)) fun _ =>
    PRes.orElse
      (PRes.bind (angleOpen "LIST".data input) fun i1 _ =>
        PRes.bind (parseCqlTypeM f i1) fun i2 t =>
        PRes.bind (angleClose i2) fun i3 _ => .ok i3 (.LIST t)) fun _ =>
    PRes.orElse
      (PRes.bind (angleOpen "TUPLE".data input) fun i1 _ =>
        PRes.bind (sepList1F (fun j =>
            PRes.bind (parseCqlTypeM f (multispace0P j)) fun j1 t =>
            .ok (multispace0P j1) t) f i1) fun i2 ts =>
        PRes.bind (angleClose i2) fun i3 _ => .ok i3 (.TUPLE ts)) fun _ =>
    PRes.bind (parseIdentF (f + 1) input) fun i1 id => .ok i1 (.UserDefined id)

theorem parseCqlTypeM_len :
    ∀ {fuel : Nat} {input rest : List Char} {v : CqlType CqlIdentifier},
      parseCqlTypeM fuel input = .ok rest v → rest.length ≤ input.length := by
  intro fuel
  induction fuel with
  | zero => intro input rest v h; simp [parseCqlTypeM] at h
  | succ f ih =>
    intro input rest v h
    unfold parseCqlTypeM at h
    rcases PRes.orElse_ok h with h | ⟨_, h⟩
    · have := altTags_len h
      omega
    rcases PRes.orElse_ok h with h | ⟨_, h⟩
    · rcases PRes.bind_ok h with ⟨i1, u1, e1, h⟩
      rcases PRes.bind_ok h with ⟨i2, t1, e2, h⟩
      rcases PRes.bind_ok h with ⟨i3, u3, e3, h⟩
      injection h with h1 h2
      subst h1
      have l1 := angleOpen_ok e1
      have l2 := ih e2
      have l3 := angleClose_ok e3
      omega
    rcases PRes.orElse_ok h with h | ⟨_, h⟩
    · rcases PRes.bind_ok h with ⟨i1, u1, e1, h⟩
      rcases PRes.bind_ok h with ⟨i2, t1, e2, h⟩
      rcases PRes.bind_ok h with ⟨i3, u3, e3, h⟩
      rcases PRes.bind_ok h with ⟨i4, t2, e4, h⟩
      rcases PRes.bind_ok h with ⟨i5, u5, e5, h⟩
      injection h with h1 h2
      subst h1
      have l1 := angleOpen_ok e1
      have l2 := ih e2
      have l3 := tagP_ok e3
      have l4 := ih e4
      have l5 := angleClose_ok e5
      have m1 := multispace0P_le i2
      have m2 := multispace0P_le i3
      simp at l3
      omega
    rcases PRes.orElse_ok h with h | ⟨_, h⟩
    · rcases PRes.bind_ok h with ⟨i1, u1, e1, h⟩
      rcases PRes.bind_ok h with ⟨i2, t1, e2, h⟩
      rcases PRes.bind_ok h with ⟨i3, u3, e3, h⟩
      injection h with h1 h2
      subst h1
      have l1 := angleOpen_ok e1
      have l2 := ih e2
      have l3 := angleClose_ok e3
      omega
    rcases PRes.orElse_ok h with h | ⟨_, h⟩
    · rcases PRes.bind_ok h with ⟨i1, u1, e1, h⟩
      rcases PRes.bind_ok h with ⟨i2, t1, e2, h⟩
      rcases PRes.bind_ok h with ⟨i3, u3, e3, h⟩
      injection h with h1 h2
      subst h1
      have l1 := angleOpen_ok e1
      have l2 := ih e2
      have l3 := angleClose_ok e3
      omega
    rcases PRes.orElse_ok h with h | ⟨_, h⟩
    · rcases PRes.bind_ok h with ⟨i1, u1, e1, h⟩
      rcases PRes.bind_ok h with ⟨i2, ts, e2, h⟩
      rcases PRes.bind_ok h with ⟨i3, u3, e3, h⟩
      injection h with h1 h2
      subst h1
      have l1 := angleOpen_ok e1
      have l2 : i2.length ≤ i1.length := by
        refine sepList1F_len ?_ e2
        intro i r v he
        rcases PRes.bind_ok he with ⟨j1, t1, ej, he⟩
        injection he with he1 he2
        subst he1
        have := ih ej
        have := multispace0P_le i
        have := multispace0P_le j1
        omega
      have l3 := angleClose_ok e3
      omega
    · rcases PRes.bind_ok h with ⟨i1, id1, e1, h⟩
      injection h with h1 h2
      subst h1
      have := parseIdentF_len e1
      omega

theorem parseCqlTypeM_noout :
    ∀ {fuel : Nat} {input : List Char}, input.length < fuel →
      parseCqlTypeM fuel input ≠ .out := by
  intro fuel
  induction fuel with
  | zero => intro input h; omega
  | succ f ih =>
    intro input hf h
    unfold parseCqlTypeM at h
    rcases PRes.orElse_out h with h | ⟨_, h⟩
    · exact altTags_noout h
    rcases PRes.orElse_out h with h | ⟨_, h⟩
    · rcases PRes.bind_out h with h | ⟨i1, u1, e1, h⟩
      · exact angleOpen_noout h
      rcases PRes.bind_out h with h | ⟨i2, t1, e2, h⟩
      · exact ih (by have := angleOpen_ok e1; omega) h
      rcases PRes.bind_out h with h | ⟨i3, u3, e3, h⟩
      · exact angleClose_noout h
      · simp at h
    rcases PRes.orElse_out h with h | ⟨_, h⟩
    · rcases PRes.bind_out h with h | ⟨i1, u1, e1, h⟩
      · exact angleOpen_noout h
      rcases PRes.bind_out h with h | ⟨i2, t1, e2, h⟩
      · exact ih (by have := angleOpen_ok e1; omega) h
      rcases PRes.bind_out h with h | ⟨i3, u3, e3, h⟩
      · simp [tagP] at h
        split at h <;> simp_all
      rcases PRes.bind_out h with h | ⟨i4, t2, e4, h⟩
      · refine ih ?_ h
        have l1 := angleOpen_ok e1
        have l2 := parseCqlTypeM_len e2
        have l3 := tagP_ok e3
        have m1 := multispace0P_le i2
        have m2 := multispace0P_le i3
        simp at l3
        omega
      rcases PRes.bind_out h with h | ⟨i5, u5, e5, h⟩
      · exact angleClose_noout h
      · simp at h
    rcases PRes.orElse_out h with h | ⟨_, h⟩
    · rcases PRes.bind_out h with h | ⟨i1, u1, e1, h⟩
      · exact angleOpen_noout h
      rcases PRes.bind_out h with h | ⟨i2, t1, e2, h⟩
      · exact ih (by have := angleOpen_ok e1; omega) h
      rcases PRes.bind_out h with h | ⟨i3, u3, e3, h⟩
      · exact angleClose_noout h
      · simp at h
    rcases PRes.orElse_out h with h | ⟨_, h⟩
    · rcases PRes.bind_out h with h | ⟨i1, u1, e1, h⟩
      · exact angleOpen_noout h
      rcases PRes.bind_out h with h | ⟨i2, t1, e2, h⟩
      · exact ih (by have := angleOpen_ok e1; omega) h
      rcases PRes.bind_out h with h | ⟨i3, u3, e3, h⟩
      · exact angleClose_noout h
      · simp at h
    rcases PRes.orElse_out h with h | ⟨_, h⟩
    · rcases PRes.bind_out h with h | ⟨i1, u1, e1, h⟩
      · exact angleOpen_noout h
      rcases PRes.bind_out h with h | ⟨i2, ts, e2, h⟩
      · have hi1 : i1.length < f := by
          have := angleOpen_ok e1
          omega
        refine sepList1F_noout i1.length ?_ ?_ (le_refl _) hi1 h
        · intro i r v he
          rcases PRes.bind_ok he with ⟨j1, t1, ej, he⟩
          injection he with he1 he2
          subst he1
          have := parseCqlTypeM_len ej
          have := multispace0P_le i
          have := multispace0P_le j1
          omega
        · intro i hi hcon
          rcases PRes.bind_out hcon with hcon | ⟨j1, t1, ej, hcon⟩
          · exact ih (by have := multispace0P_le i; omega) hcon
          · simp at hcon
      rcases PRes.bind_out h with h | ⟨i3, u3, e3, h⟩
      · exact angleClose_noout h
      · simp at h
    · rcases PRes.bind_out h with h | ⟨i1, id1, e1, h⟩
      · exact parseIdentF_noout hf h
      · simp at h

/-! ## Sequences of whitespace-separated keywords
(`space1_tags_no_case` and `space1_tags`, `src/utils.rs`) -/

def tagsSeqNoCase : List (List Char) → List Char → PRes Unit
  | [], input => .ok input ()
  | [t], input => PRes.bind (tagNoCaseP t input) fun i _ => .ok i ()
  | t :: ts, input =>
    PRes.bind (tagNoCaseP t input) fun i _ =>
    PRes.bind (multispace1P i) fun i2 _ => tagsSeqNoCase ts i2

def tagsSeqSens : List (List Char) → List Char → PRes Unit
  | [], input => .ok input ()
  | [t], input => PRes.bind (tagP t input) fun i _ => .ok i ()
  | t :: ts, input =>
    PRes.bind (tagP t input) fun i _ =>
    PRes.bind (multispace1P i) fun i2 _ => tagsSeqSens ts i2

/-! ## Modular qualified-identifier grammar
(`src/parse/qualified_identifier.rs`): `name` or `keyspace . name`, the
dot surrounded by optional whitespace; with no dot, the whitespace after
the first identifier has already been consumed. -/

def parseQualifiedIdentF (fuel : Nat) (input : List Char) :
    PRes CqlQualifiedIdentifier :=
  PRes.bind (parseIdentF fuel input) fun i1 first =>
  match tagP ['.'] (multispace0P i1) with
  | .ok i3 _ =>
    PRes.bind (parseIdentF fuel (multispace0P i3)) fun i5 name =>
    .ok i5 ⟨some first, name⟩
  | _ => .ok (multispace0P i1) ⟨none, first⟩

/-! ## Modular column grammar (`src/parse/table/column.rs`):
`name type [STATIC] [PRIMARY KEY]`, the optional suffixes each preceded by
mandatory whitespace, checked in that fixed order. -/

def parseColumnM (fuel : Nat) (input : List Char) : PRes CqlColumnP :=
  PRes.bind (parseIdentF fuel input) fun i1 name =>
  PRes.bind (parseCqlTypeM fuel (multispace0P i1)) fun i3 ty =>
  PRes.bind (optP (PRes.bind (multispace1P i3) fun ia _ =>
      PRes.bind (tagNoCaseP "STATIC".data ia) fun ib _ => .ok ib ()) i3)
    fun i4 st =>
  PRes.bind (optP (PRes.bind (multispace1P i4) fun ia _ =>
      tagsSeqNoCase ["PRIMARY".data, "KEY".data] ia) i4) fun i5 pk =>
  .ok i5 ⟨name, ty, st.isSome, pk.isSome⟩

/-! ## Modular primary-key grammar (`src/parse/table/primary_key.rs`):
`( partition [, clustering (, clustering)*] )` where partition is a bare
name or a parenthesized name list. -/

/-- `space0_around(CqlIdentifier::parse)`. -/
def identElemF (fuel : Nat) (j : List Char) : PRes CqlIdentifier :=
  PRes.bind (parseIdentF fuel (multispace0P j)) fun j1 v =>
  .ok (multispace0P j1) v

def parsePrimaryKeyM (fuel : Nat) (input : List Char) : PRes CqlPrimaryKeyP :=
  PRes.bind (tagP ['('] input) fun i1 _ =>
  PRes.bind
    (PRes.orElse
      (PRes.bind (parseIdentF fuel (multispace0P i1)) fun ia n => .ok ia [n])
      fun _ =>
        PRes.bind (tagP ['('] (multispace0P i1)) fun ib _ =>
        PRes.bind (sepList1F (identElemF fuel) fuel ib) fun ic ns =>
        PRes.bind (tagP [')'] ic) fun id2 _ => .ok id2 ns)
    fun i3 partition =>
  PRes.bind (optP
      (PRes.bind (tagP [','] (multispace0P i3)) fun ia _ =>
        PRes.bind (sepList1F (identElemF fuel) fuel (multispace0P ia))
          fun ic ns => .ok ic ns) (multispace0P i3))
    fun i5 clus =>
  PRes.bind (tagP [')'] (multispace0P i5)) fun i7 _ =>
  .ok i7 ⟨partition, clus.getD []⟩

/-! ## Modular table-options grammar (`src/parse/table/options.rs`)

The loop recognizes `COMPACT STORAGE` (case-sensitive `space1_tags`) or
`CLUSTERING ORDER BY (name ASC|DESC, ...)`; there is no branch for
free-form options (the `TODO: parse options.` stub), so an unrecognized
option simply ends the loop with the text unconsumed.  Each recognized
option may chain with `AND`. -/

/-- `space0_around(space1_between((CqlIdentifier::parse, ASC|DESC)))`. -/
def orderElemF (fuel : Nat) (j : List Char) :
    PRes (CqlIdentifier × CqlOrder) :=
  PRes.bind (parseIdentF fuel (multispace0P j)) fun j1 n =>
  PRes.bind (multispace1P j1) fun j2 _ =>
  PRes.bind (PRes.orElse
      (PRes.bind (tagNoCaseP "ASC".data j2) fun ja _ => .ok ja CqlOrder.Asc)
      fun _ =>
        PRes.bind (tagNoCaseP "DESC".data j2) fun ja _ => .ok ja CqlOrder.Desc)
    fun j3 o =>
  .ok (multispace0P j3) (n, o)

def parseClusteringM (fuel : Nat) (input : List Char) :
    PRes (List (CqlIdentifier × CqlOrder)) :=
  PRes.bind (tagsSeqSens ["CLUSTERING".data, "ORDER".data, "BY".data] input)
    fun i1 _ =>
  PRes.bind (tagP ['('] (multispace0P i1)) fun i2 _ =>
  PRes.bind (sepList1F (orderElemF fuel) fuel i2) fun i3 ord =>
  PRes.bind (tagP [')'] i3) fun i4 _ => .ok i4 ord

def parseOptionsLoopM : Nat → Bool →
    Option (List (CqlIdentifier × CqlOrder)) → List Char →
    PRes CqlTableOptionsP
  | 0, _, _, _ => .out
  | f + 1, compact, clus, input =>
    match (PRes.orElse
        (PRes.bind
          (tagsSeqSens ["COMPACT".data, "STORAGE".data] (multispace0P input))
          fun i1 _ => .ok i1 (Sum.inl ()))
        fun _ =>
          PRes.bind (parseClusteringM (f + 1) (multispace0P input))
            fun i1 ord => .ok i1 (Sum.inr ord) :
        PRes (Sum Unit (List (CqlIdentifier × CqlOrder)))) with
    | .ok i1 res =>
      let compact2 := match res with | .inl _ => true | .inr _ => compact
      let clus2 := match res with | .inl _ => clus | .inr ord => some ord
      match PRes.bind (multispace1P i1) fun ia _ => tagNoCaseP "AND".data ia with
      | .ok i2 _ => parseOptionsLoopM f compact2 clus2 i2
      | .err => .ok i1 ⟨compact2, clus2.getD [], []⟩
      | .fail => .fail
      | .panic => .panic
      | .out => .out
    | .err => .ok (multispace0P input) ⟨compact, clus.getD [], []⟩
    | .fail => .fail
    | .panic => .panic
    | .out => .out

/-- `CqlTableOptions::parse` of the modular grammar. -/
def parseTableOptionsM (fuel : Nat) (input : List Char) :
    PRes CqlTableOptionsP :=
  parseOptionsLoopM fuel false none input

/-! ## Modular table grammar (`src/parse/table.rs` lines 22-57) -/

/-- `space0_around(CqlColumn::parse)`. -/
def columnElemF (fuel : Nat) (j : List Char) : PRes CqlColumnP :=
  PRes.bind (parseColumnM fuel (multispace0P j)) fun j1 c =>
  .ok (multispace0P j1) c

def parseTableM (fuel : Nat) (input : List Char) : PRes CqlTableP :=
  PRes.bind (tagsSeqNoCase ["CREATE".data, "TABLE".data] input) fun i1 _ =>
  PRes.bind (optP (PRes.bind (multispace1P i1) fun ia _ =>
      tagsSeqNoCase ["IF".data, "NOT".data, "EXISTS".data] ia) i1) fun i2 ine =>
  PRes.bind (multispace1P i2) fun i3 _ =>
  PRes.bind (parseQualifiedIdentF fuel i3) fun i4 name =>
  PRes.bind (tagP ['('] (multispace0P i4)) fun i5 _ =>
  PRes.bind (sepList0F (columnElemF fuel) fuel i5) fun i6 cols =>
  PRes.bind (optP (PRes.bind (tagP [','] i6) fun ia _ =>
      PRes.bind (tagsSeqNoCase ["PRIMARY".data, "KEY".data] (multispace0P ia))
        fun ib _ =>
      PRes.bind (parsePrimaryKeyM fuel (multispace0P ib)) fun ic pk =>
      .ok ic pk) i6) fun i7 pk =>
  PRes.bind (tagP [')'] (multispace0P i7)) fun i8 _ =>
  PRes.bind (optP (PRes.bind (tagNoCaseP "WITH".data (multispace0P i8))
      fun ia _ =>
      PRes.bind (multispace1P ia) fun ib _ =>
      PRes.bind (parseTableOptionsM fuel ib) fun ic o => .ok ic o)
      (multispace0P i8))
    fun i9 opts =>
  .ok i9 ⟨ine.isSome, name, cols, pk, opts⟩

/-! ## The legacy implementation (`src/lib.rs`)

`src/lib.rs` is a self-contained older variant: it resolves user-defined
types while parsing (each `CREATE` statement is parsed against the UDTs of
the statements before it) and looks primary-key/clustering column names up
with `.unwrap()`, which panics when the name is unknown.  Its free-form
table-option branch is the `unimplemented!` stub `parse_option`. -/

/-- `CqlNativeType` (`src/lib.rs` lines 142-186). -/
inductive CqlNativeType where
  | ASCII
  | BIGINT
  | BLOB
  | BOOLEAN
  | COUNTER
  | DATE
  | DECIMAL
  | DOUBLE
  | DURATION
  | FLOAT
  | INET
  | INT
  | SMALLINT
  | TEXT
  | TIME
  | TIMESTAMP
  | TIMEUUID
  | TINYINT
  | UUID
  | VARCHAR
  | VARINT
deriving Repr, DecidableEq

mutual

/-- `CqlType` (`src/lib.rs` lines 56-69). -/
inductive LCqlType where
  | Frozen (t : LCqlType)
  | Native (n : CqlNativeType)
  | Collection (c : LCqlCollectionType)
  | UserDefined (u : LCqlUserDefinedType)
  | Tuple (ts : List LCqlType)
deriving Repr

/-- `CqlCollectionType` (`src/lib.rs` lines 230-238). -/
inductive LCqlCollectionType where
  | MAP (key value : LCqlType)
  | SET (t : LCqlType)
  | LIST (t : LCqlType)
deriving Repr

/-- `CqlUserDefinedType` (`src/lib.rs` lines 338-346). -/
inductive LCqlUserDefinedType where
  | mk (keyspace : Option CqlIdentifier) (name : CqlIdentifier)
      (fields : List (CqlIdentifier × LCqlType))
deriving Repr

end

def LCqlUserDefinedType.keyspace : LCqlUserDefinedType → Option CqlIdentifier
  | .mk k _ _ => k

def LCqlUserDefinedType.name : LCqlUserDefinedType → CqlIdentifier
  | .mk _ n _ => n

def LCqlUserDefinedType.fields :
    LCqlUserDefinedType → List (CqlIdentifier × LCqlType)
  | .mk _ _ fs => fs

/-- `CqlColumn` (`src/lib.rs` lines 700-710). -/
structure LCqlColumn where
  name : CqlIdentifier
  cql_type : LCqlType
  is_static : Bool
  is_primary_key : Bool
deriving Repr

/-- `CqlPrimaryKey` (`src/lib.rs` lines 765-771). -/
structure LCqlPrimaryKey where
  partition_key : List LCqlColumn
  clustering_columns : List LCqlColumn
deriving Repr

/-- `CqlTableOptions` (`src/lib.rs` lines 883-890). -/
structure LCqlTableOptions where
  compact_storage : Bool
  clustering_order : List (LCqlColumn × CqlOrder)
  options : List (String × String)
deriving Repr

/-- `CqlTable` (`src/lib.rs` lines 550-562). -/
structure LCqlTable where
  keyspace : Option CqlIdentifier
  name : CqlIdentifier
  columns : List LCqlColumn
  primary_key : Option LCqlPrimaryKey
  options : Option LCqlTableOptions
deriving Repr

/-- `CqlStatement` (`src/lib.rs` lines 1043-1047). -/
inductive LCqlStatement where
  | UDType (u : LCqlUserDefinedType)
  | Table (t : LCqlTable)
deriving Repr

/-- The native-type alternatives in the order of `src/lib.rs` lines
195-217 (note `TIME` is tried before `TIMESTAMP` there). -/
def scalarTagsL : List (List Char × CqlNativeType) :=
  [("ASCII".data, .ASCII), ("BIGINT".data, .BIGINT), ("BLOB".data, .BLOB),
   ("BOOLEAN".data, .BOOLEAN), ("COUNTER".data, .COUNTER),
   ("DATE".data, .DATE), ("DECIMAL".data, .DECIMAL),
   ("DOUBLE".data, .DOUBLE), ("DURATION".data, .DURATION),
   ("FLOAT".data, .FLOAT), ("INET".data, .INET), ("INT".data, .INT),
   ("SMALLINT".data, .SMALLINT), ("TEXT".data, .TEXT), ("TIME".data, .TIME),
   ("TIMESTAMP".data, .TIMESTAMP), ("TIMEUUID".data, .TIMEUUID),
   ("TINYINT".data, .TINYINT), ("UUID".data, .UUID),
   ("VARCHAR".data, .VARCHAR), ("VARINT".data, .VARINT)]

/-- `CqlNativeType::parse`. -/
def parseNativeTypeL (input : List Char) : PRes CqlNativeType :=
  altTags scalarTagsL input

/-- `CqlType::parse` (`src/lib.rs` lines 71-129): alt of `parse_frozen`,
native, collection, tuple, `parse_udt`; followed by an
`opt(tag_no_case("frozen"))` (line 91).  `parse_udt` looks the identifier
up among the in-scope UDTs by name and returns `Err::Failure` when the
name is unknown.  `CqlTupleType::parse` (lines 471-489) matches `TUPLE`
case-sensitively and uses `separated_list0`. -/
def parseCqlTypeL : Nat → List LCqlUserDefinedType → List Char →
    PRes LCqlType
  | 0, _, _ => .out
  | f + 1, udts, input =>
    PRes.bind
      (PRes.orElse
        (PRes.bind (tagNoCaseP "frozen".data input) fun i1 _ =>
          PRes.bind (tagP ['<'] (multispace0P i1)) fun i2 _ =>
          PRes.bind (parseCqlTypeL f udts (multispace0P i2)) fun i3 t =>
          PRes.bind (tagP ['>'] (multispace0P i3)) fun i4 _ =>
          .ok i4 (.Frozen t)) fun _ =>
      PRes.orElse
        (PRes.bind (parseNativeTypeL input) fun i1 n => .ok i1 (.Native n))
        fun _ =>
      PRes.orElse
        (PRes.orElse
          (PRes.bind (tagNoCaseP "MAP".data input) fun i1 _ =>
            PRes.bind (tagP ['<'] (multispace0P i1)) fun i2 _ =>
            PRes.bind (parseCqlTypeL f udts (multispace0P i2)) fun i3 k =>
            PRes.bind (tagP [','] (multispace0P i3)) fun i4 _ =>
            PRes.bind (parseCqlTypeL f udts (multispace0P i4)) fun i5 v =>
            PRes.bind (tagP ['>'] (multispace0P i5)) fun i6 _ =>
            .ok i6 (.Collection (.MAP k v))) fun _ =>
        PRes.orElse
          (PRes.bind (tagNoCaseP "SET".data input) fun i1 _ =>
            PRes.bind (tagP ['<'] (multispace0P i1)) fun i2 _ =>
            PRes.bind (parseCqlTypeL f udts (multispace0P i2)) fun i3 t =>
            PRes.bind (tagP ['>'] (multispace0P i3)) fun i4 _ =>
            .ok i4 (.Collection (.SET t))) fun _ =>
          PRes.bind (tagNoCaseP "LIST".data input) fun i1 _ =>
          PRes.bind (tagP ['<'] (multispace0P i1)) fun i2 _ =>
          PRes.bind (parseCqlTypeL f udts (multispace0P i2)) fun i3 t =>
          PRes.bind (tagP ['>'] (multispace0P i3)) fun i4 _ =>
          .ok i4 (.Collection (.LIST t))) fun _ =>
      PRes.orElse
        (PRes.bind (tagP "TUPLE".data input) fun i1 _ =>
          PRes.bind (tagP ['<'] (multispace0P i1)) fun i2 _ =>
          PRes.bind (sepList0F (fun j =>
              PRes.bind (parseCqlTypeL f udts (multispace0P j)) fun j1 t =>
              .ok (multispace0P j1) t) f i2) fun i3 ts =>
          PRes.bind (tagP ['>'] i3) fun i4 _ =>
          .ok i4 (.Tuple ts)) fun _ =>
      PRes.bind (parseIdentF (f + 1) input) fun i1 id =>
        match udts.find? (fun u => identEq u.name id) with
        | some u => .ok i1 (.UserDefined u)
        | none => .fail)
      fun iA ty =>
    PRes.bind (optP (tagNoCaseP "frozen".data iA) iA) fun iB _ => .ok iB ty

/-- `parse_identifier` of `src/lib.rs` (lines 413-429 and 679-695):
`name` or `keyspace.name`, returned as a pair. -/
def parsePairIdentL (fuel : Nat) (input : List Char) :
    PRes (Option CqlIdentifier × CqlIdentifier) :=
  PRes.bind (parseIdentF fuel input) fun i1 first =>
  match tagP ['.'] (multispace0P i1) with
  | .ok i3 _ =>
    PRes.bind (parseIdentF fuel (multispace0P i3)) fun i5 name =>
    .ok i5 (some first, name)
  | _ => .ok (multispace0P i1) (none, first)

/-- `CqlUserDefinedType::parse_field` (`src/lib.rs` lines 431-444). -/
def fieldElemL (fuel : Nat) (udts : List LCqlUserDefinedType)
    (j : List Char) : PRes (CqlIdentifier × LCqlType) :=
  PRes.bind (parseIdentF fuel (multispace0P j)) fun j1 n =>
  PRes.bind (multispace1P j1) fun j2 _ =>
  PRes.bind (parseCqlTypeL fuel udts j2) fun j3 t =>
  .ok (multispace0P j3) (n, t)

/-- `CqlUserDefinedType::parse` (`src/lib.rs` lines 349-386): the in-scope
UDTs are filtered by keyspace equality before the fields are parsed. -/
def parseUdtDefL (fuel : Nat) (udts : List LCqlUserDefinedType)
    (input : List Char) : PRes LCqlUserDefinedType :=
  PRes.bind (tagsSeqNoCase ["CREATE".data, "TYPE".data] input) fun i1 _ =>
  PRes.bind (optP (PRes.bind (multispace1P i1) fun ia _ =>
      tagsSeqNoCase ["IF".data, "NOT".data, "EXISTS".data] ia) i1) fun i2 _ =>
  PRes.bind (multispace1P i2) fun i3 _ =>
  PRes.bind (parsePairIdentL fuel i3) fun i4 kn =>
  PRes.bind (tagP ['('] (multispace0P i4)) fun i5 _ =>
  PRes.bind (sepList0F
      (fieldElemL fuel (udts.filter fun u => optIdentEq u.keyspace kn.1))
      fuel i5) fun i6 fields =>
  PRes.bind (tagP [')'] i6) fun i7 _ =>
  .ok i7 (.mk kn.1 kn.2 fields)

/-- `CqlColumn::parse` (`src/lib.rs` lines 713-760): `parse_static` is
`multispace0` then `STATIC`; `parse_primary_key` is `multispace0`,
`PRIMARY`, `multispace1`, `KEY`. -/
def parseColumnL (fuel : Nat) (udts : List LCqlUserDefinedType)
    (input : List Char) : PRes LCqlColumn :=
  PRes.bind (parseIdentF fuel input) fun i1 name =>
  PRes.bind (parseCqlTypeL fuel udts (multispace0P i1)) fun i3 ty =>
  PRes.bind (optP (tagNoCaseP "STATIC".data (multispace0P (multispace0P i3)))
      (multispace0P i3)) fun i5 st =>
  PRes.bind (optP (PRes.bind
      (tagNoCaseP "PRIMARY".data (multispace0P (multispace0P i5))) fun ia _ =>
      PRes.bind (multispace1P ia) fun ib _ =>
      PRes.bind (tagNoCaseP "KEY".data ib) fun ic _ => .ok ic ())
      (multispace0P i5)) fun i7 pk =>
  .ok i7 ⟨name, ty, st.isSome, pk.isSome⟩

/-- The `find` by name over the already-parsed columns
(`src/lib.rs` lines 834-838, 868-874, 1004-1010). -/
def findColumnL (cols : List LCqlColumn) (n : CqlIdentifier) :
    Option LCqlColumn :=
  cols.find? fun c => identEq c.name n

/-- The `map(... .unwrap())` over referenced names: `none` marks the case
in which `unwrap` panics. -/
def mapNamesToColumnsL (cols : List LCqlColumn) :
    List CqlIdentifier → Option (List LCqlColumn)
  | [] => some []
  | n :: ns =>
    match findColumnL cols n with
    | some c =>
      match mapNamesToColumnsL cols ns with
      | some l => some (c :: l)
      | none => none
    | none => none

/-- `CqlPrimaryKey::parse_partition_key` (`src/lib.rs` lines 796-843):
a bare name or a parenthesized `separated_list0` of names, then the
unwrap-based lookup (panics on an unknown name). -/
def parsePartitionKeyL (fuel : Nat) (cols : List LCqlColumn)
    (input : List Char) : PRes (List LCqlColumn) :=
  PRes.bind
    (PRes.orElse
      (PRes.bind (parseIdentF fuel input) fun ia n => .ok ia [n])
      fun _ =>
        PRes.bind (tagP ['('] input) fun ib _ =>
        PRes.bind (sepList0F (identElemF fuel) fuel ib) fun ic ns =>
        PRes.bind (tagP [')'] ic) fun id2 _ => .ok id2 ns)
    fun i1 names =>
  match mapNamesToColumnsL cols names with
  | some l => .ok i1 l
  | none => .panic

/-- `CqlPrimaryKey::parse_clustering_columns` (`src/lib.rs` lines
845-878). -/
def parseClusteringColumnsL (fuel : Nat) (cols : List LCqlColumn)
    (input : List Char) : PRes (List LCqlColumn) :=
  PRes.bind (tagP [','] (multispace0P input)) fun i1 _ =>
  PRes.bind (sepList1F (identElemF fuel) fuel i1) fun i2 ns =>
  match mapNamesToColumnsL cols ns with
  | some l => .ok i2 l
  | none => .panic

/-- `CqlPrimaryKey::parse` (`src/lib.rs` lines 774-794). -/
def parsePrimaryKeyL (fuel : Nat) (cols : List LCqlColumn)
    (input : List Char) : PRes LCqlPrimaryKey :=
  PRes.bind (parsePartitionKeyL fuel cols input) fun i1 pk =>
  PRes.bind (optP (parseClusteringColumnsL fuel cols (multispace0P i1))
      (multispace0P i1)) fun i2 cc =>
  .ok i2 ⟨pk, cc.getD []⟩

/-- `parse_order` of `CqlTableOptions::parse_clustering`
(`src/lib.rs` lines 979-989): `multispace0`, name, `multispace1`,
`ASC`/`DESC` (no trailing whitespace). -/
def orderPairElemL (fuel : Nat) (j : List Char) :
    PRes (CqlIdentifier × CqlOrder) :=
  PRes.bind (parseIdentF fuel (multispace0P j)) fun j1 n =>
  PRes.bind (multispace1P j1) fun j2 _ =>
  PRes.bind (PRes.orElse
      (PRes.bind (tagNoCaseP "ASC".data j2) fun ja _ => .ok ja CqlOrder.Asc)
      fun _ =>
        PRes.bind (tagNoCaseP "DESC".data j2) fun ja _ => .ok ja CqlOrder.Desc)
    fun j3 o => .ok j3 (n, o)

/-- The unwrap-based lookup of the clustering-order names
(`src/lib.rs` lines 1000-1015). -/
def mapOrderToColumnsL (cols : List LCqlColumn) :
    List (CqlIdentifier × CqlOrder) → Option (List (LCqlColumn × CqlOrder))
  | [] => some []
  | (n, o) :: ns =>
    match findColumnL cols n with
    | some c =>
      match mapOrderToColumnsL cols ns with
      | some l => some ((c, o) :: l)
      | none => none
    | none => none

/-- `CqlTableOptions::parse_clustering` (`src/lib.rs` lines 968-1016). -/
def parseClusteringL (fuel : Nat) (cols : List LCqlColumn)
    (input : List Char) : PRes (List (LCqlColumn × CqlOrder)) :=
  PRes.bind (tagsSeqNoCase ["CLUSTERING".data, "ORDER".data, "BY".data] input)
    fun i1 _ =>
  PRes.bind (tagP ['('] (multispace0P i1)) fun i2 _ =>
  PRes.bind (sepList1F (orderPairElemL fuel) fuel i2) fun i3 ord =>
  PRes.bind (tagP [')'] i3) fun i4 _ =>
  match mapOrderToColumnsL cols ord with
  | some l => .ok i4 l
  | none => .panic

/-- The option loop of `CqlTableOptions::parse` (`src/lib.rs` lines
892-955).  The third `alt` branch is `parse_option`, the `unimplemented!`
stub (lines 1018-1021): whenever neither `COMPACT STORAGE` nor
`CLUSTERING ORDER BY` matches, the loop panics instead of ending. -/
def parseOptionsLoopL : Nat → List LCqlColumn → Bool →
    Option (List (LCqlColumn × CqlOrder)) → List Char →
    PRes LCqlTableOptions
  | 0, _, _, _, _ => .out
  | f + 1, cols, compact, clus, input =>
    match (PRes.orElse
        (PRes.bind
          (tagsSeqNoCase ["COMPACT".data, "STORAGE".data] (multispace0P input))
          fun i1 _ => .ok i1 (Sum.inl ()))
        fun _ =>
          PRes.orElse
            (PRes.bind (parseClusteringL (f + 1) cols (multispace0P input))
              fun i1 ord => .ok i1 (Sum.inr ord))
            fun _ => .panic :
        PRes (Sum Unit (List (LCqlColumn × CqlOrder)))) with
    | .ok i1 res =>
      let compact2 := match res with | .inl _ => true | .inr _ => compact
      let clus2 := match res with | .inl _ => clus | .inr ord => some ord
      match PRes.bind (multispace1P i1) fun ia _ =>
          tagNoCaseP "AND".data ia with
      | .ok i2 _ => parseOptionsLoopL f cols compact2 clus2 i2
      | .err => .ok i1 ⟨compact2, clus2.getD [], []⟩
      | .fail => .fail
      | .panic => .panic
      | .out => .out
    | .err => .ok (multispace0P input) ⟨compact, clus.getD [], []⟩
    | .fail => .fail
    | .panic => .panic
    | .out => .out

/-- `CqlTableOptions::parse` (`src/lib.rs` lines 892-955). -/
def parseTableOptionsLibL (fuel : Nat) (cols : List LCqlColumn)
    (input : List Char) : PRes LCqlTableOptions :=
  parseOptionsLoopL fuel cols false none input

/-- `CqlTable::parse_column` (`src/lib.rs` lines 608-619). -/
def columnElemL (fuel : Nat) (udts : List LCqlUserDefinedType)
    (j : List Char) : PRes LCqlColumn :=
  PRes.bind (parseColumnL fuel udts (multispace0P j)) fun j1 c =>
  .ok (multispace0P j1) c

/-- `CqlTable::parse` (`src/lib.rs` lines 564-606), with
`parse_primary_key` (lines 621-638) and `parse_table_options`
(lines 640-652) inlined at their call sites. -/
def parseTableL (fuel : Nat) (udts : List LCqlUserDefinedType)
    (input : List Char) : PRes LCqlTable :=
  PRes.bind (tagsSeqNoCase ["CREATE".data, "TABLE".data] input) fun i1 _ =>
  PRes.bind (optP (PRes.bind (multispace1P i1) fun ia _ =>
      tagsSeqNoCase ["IF".data, "NOT".data, "EXISTS".data] ia) i1) fun i2 _ =>
  PRes.bind (multispace1P i2) fun i3 _ =>
  PRes.bind (parsePairIdentL fuel i3) fun i4 kn =>
  PRes.bind (tagP ['('] (multispace0P i4)) fun i5 _ =>
  PRes.bind (sepList0F
      (columnElemL fuel (udts.filter fun u => optIdentEq u.keyspace kn.1))
      fuel i5) fun i6 cols =>
  PRes.bind (optP (PRes.bind (tagP [','] i6) fun ia _ =>
      PRes.bind (tagNoCaseP "PRIMARY".data (multispace0P ia)) fun ib _ =>
      PRes.bind (multispace1P ib) fun ic _ =>
      PRes.bind (tagNoCaseP "KEY".data ic) fun id2 _ =>
      PRes.bind (parsePrimaryKeyL fuel cols (multispace0P id2)) fun ie pk =>
      .ok (multispace0P ie) pk) i6) fun i7 pk =>
  PRes.bind (tagP [')'] i7) fun i8 _ =>
  PRes.bind (optP (PRes.bind (tagNoCaseP "WITH".data (multispace0P i8))
      fun ia _ =>
      PRes.bind (multispace1P ia) fun ib _ =>
      PRes.bind (parseTableOptionsLibL fuel cols ib) fun ic o => .ok ic o)
      (multispace0P i8)) fun i9 opts =>
  .ok i9 ⟨kn.1, kn.2, cols, pk, opts⟩

/-- `CqlStatement::parse` (`src/lib.rs` lines 1049-1068): UDT definition
first, then table. -/
def parseStatementL (fuel : Nat) (udts : List LCqlUserDefinedType)
    (input : List Char) : PRes LCqlStatement :=
  PRes.orElse
    (PRes.bind (parseUdtDefL fuel udts input) fun i u => .ok i (.UDType u))
    fun _ =>
      PRes.bind (parseTableL fuel udts input) fun i t => .ok i (.Table t)

/-- `CqlStatements::get_udts`-style projection of the statements parsed so
far (`src/lib.rs` lines 1100-1104). -/
def udtsOf (acc : List LCqlStatement) : List LCqlUserDefinedType :=
  acc.filterMap fun s =>
    match s with
    | .UDType u => some u
    | .Table _ => none

/-- The script-parsing loop `CqlStatements::parse`
(`src/lib.rs` lines 1090-1120): parse an optional statement (surrounded by
`multispace0`); stop when none parses; after a statement, continue only
when a `;` follows. -/
def parseStatementsL : Nat → List LCqlStatement → List Char →
    PRes (List LCqlStatement)
  | 0, _, _ => .out
  | f + 1, acc, input =>
    match optP
        (PRes.bind (parseStatementL (f + 1) (udtsOf acc) (multispace0P input))
          fun i s => .ok (multispace0P i) s)
        input with
    | .ok i (some s) =>
      match tagP [';'] i with
      | .ok i2 _ => parseStatementsL f (acc ++ [s]) i2
      | _ => .ok i (acc ++ [s])
    | .ok i none => .ok i acc
    | .err => .err
    | .fail => .fail
    | .panic => .panic
    | .out => .out

/-- `parse_cql` (`src/lib.rs` lines 44-52). -/
def parse_cql (fuel : Nat) (input : List Char) : PRes (List LCqlStatement) :=
  PRes.bind (parseStatementsL fuel [] (multispace0P input)) fun i ss =>
  .ok (multispace0P i) ss

/-! ## Length and termination lemmas for the legacy stack -/

theorem tagP_ne_out {lit input : List Char} : tagP lit input ≠ .out := by
  unfold tagP
  split <;> simp

theorem tagNoCaseP_ne_out {lit input : List Char} :
    tagNoCaseP lit input ≠ .out := by
  unfold tagNoCaseP
  split <;> simp

theorem multispace1P_ne_out {input : List Char} :
    multispace1P input ≠ .out := by
  cases input with
  | nil => simp [multispace1P]
  | cons c tl =>
    simp only [multispace1P]
    split <;> simp

theorem takeWhile1P_ne_out {p : Char → Bool} {input : List Char} :
    takeWhile1P p input ≠ .out := by
  unfold takeWhile1P
  split <;> simp

theorem tagsSeqNoCase_len :
    ∀ {ts : List (List Char)} {input rest : List Char} {v : Unit},
      tagsSeqNoCase ts input = .ok rest v → rest.length ≤ input.length := by
  intro ts
  induction ts with
  | nil =>
    intro input rest v h
    simp only [tagsSeqNoCase] at h
    injection h with h1 h2
    subst h1
    omega
  | cons t ts ih =>
    intro input rest v h
    cases ts with
    | nil =>
      simp only [tagsSeqNoCase] at h
      rcases PRes.bind_ok h with ⟨i, w, e1, h⟩
      injection h with h1 h2
      subst h1
      have := tagNoCaseP_ok e1
      omega
    | cons t2 ts2 =>
      simp only [tagsSeqNoCase] at h
      rcases PRes.bind_ok h with ⟨i, w, e1, h⟩
      rcases PRes.bind_ok h with ⟨i2, w2, e2, h⟩
      have l1 := tagNoCaseP_ok e1
      have l2 := multispace1P_ok e2
      have l3 := ih h
      omega

theorem tagsSeqNoCase_ne_out :
    ∀ {ts : List (List Char)} {input : List Char},
      tagsSeqNoCase ts input ≠ .out := by
  intro ts
  induction ts with
  | nil => intro input h; simp [tagsSeqNoCase] at h
  | cons t ts ih =>
    intro input h
    cases ts with
    | nil =>
      simp only [tagsSeqNoCase] at h
      rcases PRes.bind_out h with h | ⟨i, w, e1, h⟩
      · exact tagNoCaseP_ne_out h
      · simp at h
    | cons t2 ts2 =>
      simp only [tagsSeqNoCase] at h
      rcases PRes.bind_out h with h | ⟨i, w, e1, h⟩
      · exact tagNoCaseP_ne_out h
      rcases PRes.bind_out h with h | ⟨i2, w2, e2, h⟩
      · exact multispace1P_ne_out h
      · exact ih h

theorem parseCqlTypeL_len :
    ∀ {fuel : Nat} {udts : List LCqlUserDefinedType} {input rest : List Char}
      {v : LCqlType},
      parseCqlTypeL fuel udts input = .ok rest v →
      rest.length ≤ input.length := by
  intro fuel
  induction fuel with
  | zero => intro udts input rest v h; simp [parseCqlTypeL] at h
  | succ f ih =>
    intro udts input rest v h
    unfold parseCqlTypeL at h
    rcases PRes.bind_ok h with ⟨iA, ty, hAlt, h⟩
    rcases PRes.bind_ok h with ⟨iB, ofr, hOpt, h⟩
    injection h with h1 h2
    subst h1
    have hBA : iB.length ≤ iA.length := by
      rcases optP_ok hOpt with ⟨w, hw, _⟩ | ⟨_, hw, _⟩
      · have := tagNoCaseP_ok hw
        omega
      · simp [hw]
    have hAI : iA.length ≤ input.length := by
      rcases PRes.orElse_ok hAlt with h | ⟨_, h⟩
      · -- frozen
        rcases PRes.bind_ok h with ⟨i1, u1, e1, h⟩
        rcases PRes.bind_ok h with ⟨i2, u2, e2, h⟩
        rcases PRes.bind_ok h with ⟨i3, t3, e3, h⟩
        rcases PRes.bind_ok h with ⟨i4, u4, e4, h⟩
        injection h with h1 h2
        subst h1
        have l1 := tagNoCaseP_ok e1
        have l2 := tagP_ok e2
        have l3 := ih e3
        have l4 := tagP_ok e4
        have m1 := multispace0P_le i1
        have m2 := multispace0P_le i2
        have m3 := multispace0P_le i3
        simp at l2 l4
        omega
      rcases PRes.orElse_ok h with h | ⟨_, h⟩
      · -- native
        rcases PRes.bind_ok h with ⟨i1, n1, e1, h⟩
        injection h with h1 h2
        subst h1
        have := altTags_len e1
        omega
      rcases PRes.orElse_ok h with h | ⟨_, h⟩
      · -- collection
        rcases PRes.orElse_ok h with h | ⟨_, h⟩
        · -- map
          rcases PRes.bind_ok h with ⟨i1, u1, e1, h⟩
          rcases PRes.bind_ok h with ⟨i2, u2, e2, h⟩
          rcases PRes.bind_ok h with ⟨i3, t3, e3, h⟩
          rcases PRes.bind_ok h with ⟨i4, u4, e4, h⟩
          rcases PRes.bind_ok h with ⟨i5, t5, e5, h⟩
          rcases PRes.bind_ok h with ⟨i6, u6, e6, h⟩
          injection h with h1 h2
          subst h1
          have l1 := tagNoCaseP_ok e1
          have l2 := tagP_ok e2
          have l3 := ih e3
          have l4 := tagP_ok e4
          have l5 := ih e5
          have l6 := tagP_ok e6
          have m1 := multispace0P_le i1
          have m2 := multispace0P_le i2
          have m3 := multispace0P_le i3
          have m4 := multispace0P_le i4
          have m5 := multispace0P_le i5
          simp at l2 l4 l6
          omega
        rcases PRes.orElse_ok h with h | ⟨_, h⟩
        · -- set
          rcases PRes.bind_ok h with ⟨i1, u1, e1, h⟩
          rcases PRes.bind_ok h with ⟨i2, u2, e2, h⟩
          rcases PRes.bind_ok h with ⟨i3, t3, e3, h⟩
          rcases PRes.bind_ok h with ⟨i4, u4, e4, h⟩
          injection h with h1 h2
          subst h1
          have l1 := tagNoCaseP_ok e1
          have l2 := tagP_ok e2
          have l3 := ih e3
          have l4 := tagP_ok e4
          have m1 := multispace0P_le i1
          have m2 := multispace0P_le i2
          have m3 := multispace0P_le i3
          simp at l2 l4
          omega
        · -- list
          rcases PRes.bind_ok h with ⟨i1, u1, e1, h⟩
          rcases PRes.bind_ok h with ⟨i2, u2, e2, h⟩
          rcases PRes.bind_ok h with ⟨i3, t3, e3, h⟩
          rcases PRes.bind_ok h with ⟨i4, u4, e4, h⟩
          injection h with h1 h2
          subst h1
          have l1 := tagNoCaseP_ok e1
          have l2 := tagP_ok e2
          have l3 := ih e3
          have l4 := tagP_ok e4
          have m1 := multispace0P_le i1
          have m2 := multispace0P_le i2
          have m3 := multispace0P_le i3
          simp at l2 l4
          omega
      rcases PRes.orElse_ok h with h | ⟨_, h⟩
      · -- tuple
        rcases PRes.bind_ok h with ⟨i1, u1, e1, h⟩
        rcases PRes.bind_ok h with ⟨i2, u2, e2, h⟩
        rcases PRes.bind_ok h with ⟨i3, ts3, e3, h⟩
        rcases PRes.bind_ok h with ⟨i4, u4, e4, h⟩
        injection h with h1 h2
        subst h1
        have l1 := tagP_ok e1
        have l2 := tagP_ok e2
        have l3 : i3.length ≤ i2.length := by
          refine sepList0F_len ?_ e3
          intro i r v he
          rcases PRes.bind_ok he with ⟨j1, t1, ej, he⟩
          injection he with he1 he2
          subst he1
          have := ih ej
          have := multispace0P_le i
          have := multispace0P_le j1
          omega
        have l4 := tagP_ok e4
        have m1 := multispace0P_le i1
        simp at l1 l2 l4
        omega
      · -- udt reference
        rcases PRes.bind_ok h with ⟨i1, id1, e1, h⟩
        have l1 := parseIdentF_len e1
        cases hf : List.find? (fun u => identEq u.name id1) udts with
        | some u =>
          rw [hf] at h
          injection h with h1 h2
          subst h1
          omega
        | none => rw [hf] at h; simp at h
    omega

theorem parseCqlTypeL_noout :
    ∀ {fuel : Nat} {udts : List LCqlUserDefinedType} {input : List Char},
      input.length < fuel → parseCqlTypeL fuel udts input ≠ .out := by
  intro fuel
  induction fuel with
  | zero => intro udts input h; omega
  | succ f ih =>
    intro udts input hf h
    unfold parseCqlTypeL at h
    rcases PRes.bind_out h with h | ⟨iA, ty, hAlt, h⟩
    · -- the alt itself
      rcases PRes.orElse_out h with h | ⟨_, h⟩
      · rcases PRes.bind_out h with h | ⟨i1, u1, e1, h⟩
        · exact tagNoCaseP_ne_out h
        rcases PRes.bind_out h with h | ⟨i2, u2, e2, h⟩
        · exact tagP_ne_out h
        rcases PRes.bind_out h with h | ⟨i3, t3, e3, h⟩
        · refine ih ?_ h
          have l1 := tagNoCaseP_ok e1
          have l2 := tagP_ok e2
          have m1 := multispace0P_le i1
          have m2 := multispace0P_le i2
          simp at l2
          omega
        rcases PRes.bind_out h with h | ⟨i4, u4, e4, h⟩
        · exact tagP_ne_out h
        · simp at h
      rcases PRes.orElse_out h with h | ⟨_, h⟩
      · rcases PRes.bind_out h with h | ⟨i1, n1, e1, h⟩
        · exact altTags_noout h
        · simp at h
      rcases PRes.orElse_out h with h | ⟨_, h⟩
      · rcases PRes.orElse_out h with h | ⟨_, h⟩
        · rcases PRes.bind_out h with h | ⟨i1, u1, e1, h⟩
          · exact tagNoCaseP_ne_out h
          rcases PRes.bind_out h with h | ⟨i2, u2, e2, h⟩
          · exact tagP_ne_out h
          rcases PRes.bind_out h with h | ⟨i3, t3, e3, h⟩
          · refine ih ?_ h
            have l1 := tagNoCaseP_ok e1
            have l2 := tagP_ok e2
            have m1 := multispace0P_le i1
            have m2 := multispace0P_le i2
            simp at l2
            omega
          rcases PRes.bind_out h with h | ⟨i4, u4, e4, h⟩
          · exact tagP_ne_out h
          rcases PRes.bind_out h with h | ⟨i5, t5, e5, h⟩
          · refine ih ?_ h
            have l1 := tagNoCaseP_ok e1
            have l2 := tagP_ok e2
            have l3 := parseCqlTypeL_len e3
            have l4 := tagP_ok e4
            have m1 := multispace0P_le i1
            have m2 := multispace0P_le i2
            have m3 := multispace0P_le i3
            have m4 := multispace0P_le i4
            simp at l2 l4
            omega
          rcases PRes.bind_out h with h | ⟨i6, u6, e6, h⟩
          · exact tagP_ne_out h
          · simp at h
        rcases PRes.orElse_out h with h | ⟨_, h⟩
        · rcases PRes.bind_out h with h | ⟨i1, u1, e1, h⟩
          · exact tagNoCaseP_ne_out h
          rcases PRes.bind_out h with h | ⟨i2, u2, e2, h⟩
          · exact tagP_ne_out h
          rcases PRes.bind_out h with h | ⟨i3, t3, e3, h⟩
          · refine ih ?_ h
            have l1 := tagNoCaseP_ok e1
            have l2 := tagP_ok e2
            have m1 := multispace0P_le i1
            have m2 := multispace0P_le i2
            simp at l2
            omega
          rcases PRes.bind_out h with h | ⟨i4, u4, e4, h⟩
          · exact tagP_ne_out h
          · simp at h
        · rcases PRes.bind_out h with h | ⟨i1, u1, e1, h⟩
          · exact tagNoCaseP_ne_out h
          rcases PRes.bind_out h with h | ⟨i2, u2, e2, h⟩
          · exact tagP_ne_out h
          rcases PRes.bind_out h with h | ⟨i3, t3, e3, h⟩
          · refine ih ?_ h
            have l1 := tagNoCaseP_ok e1
            have l2 := tagP_ok e2
            have m1 := multispace0P_le i1
            have m2 := multispace0P_le i2
            simp at l2
            omega
          rcases PRes.bind_out h with h | ⟨i4, u4, e4, h⟩
          · exact tagP_ne_out h
          · simp at h
      rcases PRes.orElse_out h with h | ⟨_, h⟩
      · rcases PRes.bind_out h with h | ⟨i1, u1, e1, h⟩
        · exact tagP_ne_out h
        rcases PRes.bind_out h with h | ⟨i2, u2, e2, h⟩
        · exact tagP_ne_out h
        rcases PRes.bind_out h with h | ⟨i3, ts3, e3, h⟩
        · have l1 := tagP_ok e1
          have l2 := tagP_ok e2
          have m1 := multispace0P_le i1
          simp at l1 l2
          have hi2 : i2.length < f := by omega
          refine sepList0F_noout i2.length ?_ ?_ (le_refl _) hi2 h
          · intro i r v he
            rcases PRes.bind_ok he with ⟨j1, t1, ej, he⟩
            injection he with he1 he2
            subst he1
            have := parseCqlTypeL_len ej
            have := multispace0P_le i
            have := multispace0P_le j1
            omega
          · intro i hi hcon
            rcases PRes.bind_out hcon with hcon | ⟨j1, t1, ej, hcon⟩
            · exact ih (by have := multispace0P_le i; omega) hcon
            · simp at hcon
        rcases PRes.bind_out h with h | ⟨i4, u4, e4, h⟩
        · exact tagP_ne_out h
        · simp at h
      · rcases PRes.bind_out h with h | ⟨i1, id1, e1, h⟩
        · exact parseIdentF_noout hf h
        · cases hfind : List.find? (fun u => identEq u.name id1) udts with
          | some u => rw [hfind] at h; simp at h
          | none => rw [hfind] at h; simp at h
    · -- the trailing opt(frozen)
      rcases PRes.bind_out h with h | ⟨iB, ofr, hOpt, h⟩
      · exact tagNoCaseP_ne_out (optP_out h)
      · simp at h

theorem parsePairIdentL_len {fuel : Nat} {input rest : List Char}
    {kn : Option CqlIdentifier × CqlIdentifier}
    (h : parsePairIdentL fuel input = .ok rest kn) :
    rest.length < input.length := by
  unfold parsePairIdentL at h
  rcases PRes.bind_ok h with ⟨i1, first, e1, h⟩
  have l1 := parseIdentF_len e1
  have m1 := multispace0P_le i1
  cases ht : tagP ['.'] (multispace0P i1) with
  | ok i3 w =>
    simp only [ht] at h
    rcases PRes.bind_ok h with ⟨i5, nm, e5, h⟩
    injection h with h1 h2
    subst h1
    have l2 := tagP_ok ht
    have l3 := parseIdentF_len e5
    have m2 := multispace0P_le i3
    simp at l2
    omega
  | err =>
    simp only [ht] at h
    injection h with h1 h2
    subst h1
    omega
  | fail =>
    simp only [ht] at h
    injection h with h1 h2
    subst h1
    omega
  | panic =>
    simp only [ht] at h
    injection h with h1 h2
    subst h1
    omega
  | out =>
    simp only [ht] at h
    injection h with h1 h2
    subst h1
    omega

theorem parsePairIdentL_noout {fuel : Nat} {input : List Char}
    (hf : input.length < fuel) : parsePairIdentL fuel input ≠ .out := by
  intro h
  unfold parsePairIdentL at h
  rcases PRes.bind_out h with h | ⟨i1, first, e1, h⟩
  · exact parseIdentF_noout hf h
  · have l1 := parseIdentF_len e1
    have m1 := multispace0P_le i1
    cases ht : tagP ['.'] (multispace0P i1) with
    | ok i3 w =>
      simp only [ht] at h
      rcases PRes.bind_out h with h | ⟨i5, nm, e5, h⟩
      · refine parseIdentF_noout ?_ h
        have l2 := tagP_ok ht
        have m2 := multispace0P_le i3
        simp at l2
        omega
      · simp at h
    | err => simp only [ht] at h; simp at h
    | fail => simp only [ht] at h; simp at h
    | panic => simp only [ht] at h; simp at h
    | out => simp only [ht] at h; simp at h

theorem identElemF_len {fuel : Nat} {j rest : List Char} {v : CqlIdentifier}
    (h : identElemF fuel j = .ok rest v) : rest.length < j.length := by
  unfold identElemF at h
  rcases PRes.bind_ok h with ⟨j1, w, e1, h⟩
  injection h with h1 h2
  subst h1
  have := parseIdentF_len e1
  have := multispace0P_le j
  have := multispace0P_le j1
  omega

theorem identElemF_noout {fuel : Nat} {j : List Char}
    (hf : j.length < fuel) : identElemF fuel j ≠ .out := by
  intro h
  unfold identElemF at h
  rcases PRes.bind_out h with h | ⟨j1, w, e1, h⟩
  · exact parseIdentF_noout (by have := multispace0P_le j; omega) h
  · simp at h

theorem fieldElemL_len {fuel : Nat} {udts : List LCqlUserDefinedType}
    {j rest : List Char} {v : CqlIdentifier × LCqlType}
    (h : fieldElemL fuel udts j = .ok rest v) : rest.length < j.length := by
  unfold fieldElemL at h
  rcases PRes.bind_ok h with ⟨j1, n1, e1, h⟩
  rcases PRes.bind_ok h with ⟨j2, u2, e2, h⟩
  rcases PRes.bind_ok h with ⟨j3, t3, e3, h⟩
  injection h with h1 h2
  subst h1
  have l1 := parseIdentF_len e1
  have l2 := multispace1P_ok e2
  have l3 := parseCqlTypeL_len e3
  have m1 := multispace0P_le j
  have m2 := multispace0P_le j3
  omega

theorem fieldElemL_noout {fuel : Nat} {udts : List LCqlUserDefinedType}
    {j : List Char} (hf : j.length < fuel) :
    fieldElemL fuel udts j ≠ .out := by
  intro h
  unfold fieldElemL at h
  rcases PRes.bind_out h with h | ⟨j1, n1, e1, h⟩
  · exact parseIdentF_noout (by have := multispace0P_le j; omega) h
  rcases PRes.bind_out h with h | ⟨j2, u2, e2, h⟩
  · exact multispace1P_ne_out h
  rcases PRes.bind_out h with h | ⟨j3, t3, e3, h⟩
  · refine parseCqlTypeL_noout ?_ h
    have l1 := parseIdentF_len e1
    have l2 := multispace1P_ok e2
    have m1 := multispace0P_le j
    omega
  · simp at h

theorem parseUdtDefL_len {fuel : Nat} {udts : List LCqlUserDefinedType}
    {input rest : List Char} {u : LCqlUserDefinedType}
    (h : parseUdtDefL fuel udts input = .ok rest u) :
    rest.length ≤ input.length := by
  unfold parseUdtDefL at h
  rcases PRes.bind_ok h with ⟨i1, u1, e1, h⟩
  rcases PRes.bind_ok h with ⟨i2, o2, e2, h⟩
  rcases PRes.bind_ok h with ⟨i3, u3, e3, h⟩
  rcases PRes.bind_ok h with ⟨i4, kn, e4, h⟩
  rcases PRes.bind_ok h with ⟨i5, u5, e5, h⟩
  rcases PRes.bind_ok h with ⟨i6, fs, e6, h⟩
  rcases PRes.bind_ok h with ⟨i7, u7, e7, h⟩
  injection h with h1 h2
  subst h1
  have l1 := tagsSeqNoCase_len e1
  have l2 : i2.length ≤ i1.length := by
    rcases optP_ok e2 with ⟨w, hw, _⟩ | ⟨_, hw, _⟩
    · rcases PRes.bind_ok hw with ⟨ia, wa, ea, hw⟩
      have := multispace1P_ok ea
      have := tagsSeqNoCase_len hw
      omega
    · simp [hw]
  have l3 := multispace1P_ok e3
  have l4 := parsePairIdentL_len e4
  have l5 := tagP_ok e5
  have l6 : i6.length ≤ i5.length :=
    sepList0F_len (fun i r v he => le_of_lt (fieldElemL_len he)) e6
  have l7 := tagP_ok e7
  have m1 := multispace0P_le i4
  simp at l5 l7
  omega

theorem parseUdtDefL_noout {fuel : Nat} {udts : List LCqlUserDefinedType}
    {input : List Char} (hf : input.length < fuel) :
    parseUdtDefL fuel udts input ≠ .out := by
  intro h
  unfold parseUdtDefL at h
  rcases PRes.bind_out h with h | ⟨i1, u1, e1, h⟩
  · exact tagsSeqNoCase_ne_out h
  rcases PRes.bind_out h with h | ⟨i2, o2, e2, h⟩
  · have := optP_out h
    rcases PRes.bind_out this with hh | ⟨ia, wa, ea, hh⟩
    · exact multispace1P_ne_out hh
    · exact tagsSeqNoCase_ne_out hh
  rcases PRes.bind_out h with h | ⟨i3, u3, e3, h⟩
  · exact multispace1P_ne_out h
  have l1 := tagsSeqNoCase_len e1
  have l2 : i2.length ≤ i1.length := by
    rcases optP_ok e2 with ⟨w, hw, _⟩ | ⟨_, hw, _⟩
    · rcases PRes.bind_ok hw with ⟨ia, wa, ea, hw⟩
      have := multispace1P_ok ea
      have := tagsSeqNoCase_len hw
      omega
    · simp [hw]
  have l3 := multispace1P_ok e3
  rcases PRes.bind_out h with h | ⟨i4, kn, e4, h⟩
  · exact parsePairIdentL_noout (by omega) h
  have l4 := parsePairIdentL_len e4
  rcases PRes.bind_out h with h | ⟨i5, u5, e5, h⟩
  · exact tagP_ne_out h
  have l5 := tagP_ok e5
  have m1 := multispace0P_le i4
  simp at l5
  rcases PRes.bind_out h with h | ⟨i6, fs, e6, h⟩
  · refine sepList0F_noout i5.length
      (fun i r v he => le_of_lt (fieldElemL_len he))
      (fun i hi => fieldElemL_noout (by omega)) (le_refl _) (by omega) h
  rcases PRes.bind_out h with h | ⟨i7, u7, e7, h⟩
  · exact tagP_ne_out h
  · simp at h

theorem parseColumnL_len {fuel : Nat} {udts : List LCqlUserDefinedType}
    {input rest : List Char} {c : LCqlColumn}
    (h : parseColumnL fuel udts input = .ok rest c) :
    rest.length < input.length := by
  unfold parseColumnL at h
  rcases PRes.bind_ok h with ⟨i1, n1, e1, h⟩
  rcases PRes.bind_ok h with ⟨i3, t3, e3, h⟩
  rcases PRes.bind_ok h with ⟨i5, s5, e5, h⟩
  rcases PRes.bind_ok h with ⟨i7, p7, e7, h⟩
  injection h with h1 h2
  subst h1
  have l1 := parseIdentF_len e1
  have l3 := parseCqlTypeL_len e3
  have m1 := multispace0P_le i1
  have m3 := multispace0P_le i3
  have l5 : i5.length ≤ (multispace0P i3).length := by
    rcases optP_ok e5 with ⟨w, hw, _⟩ | ⟨_, hw, _⟩
    · have := tagNoCaseP_ok hw
      have := multispace0P_le (multispace0P i3)
      omega
    · simp [hw]
  have m5 := multispace0P_le i5
  have l7 : i7.length ≤ (multispace0P i5).length := by
    rcases optP_ok e7 with ⟨w, hw, _⟩ | ⟨_, hw, _⟩
    · rcases PRes.bind_ok hw with ⟨ia, wa, ea, hw⟩
      rcases PRes.bind_ok hw with ⟨ib, wb, eb, hw⟩
      rcases PRes.bind_ok hw with ⟨ic, wc, ec, hw⟩
      injection hw with hw1 hw2
      subst hw1
      have := tagNoCaseP_ok ea
      have := multispace1P_ok eb
      have := tagNoCaseP_ok ec
      have := multispace0P_le (multispace0P i5)
      omega
    · simp [hw]
  omega

theorem parseColumnL_noout {fuel : Nat} {udts : List LCqlUserDefinedType}
    {input : List Char} (hf : input.length < fuel) :
    parseColumnL fuel udts input ≠ .out := by
  intro h
  unfold parseColumnL at h
  rcases PRes.bind_out h with h | ⟨i1, n1, e1, h⟩
  · exact parseIdentF_noout hf h
  have l1 := parseIdentF_len e1
  have m1 := multispace0P_le i1
  rcases PRes.bind_out h with h | ⟨i3, t3, e3, h⟩
  · exact parseCqlTypeL_noout (by omega) h
  rcases PRes.bind_out h with h | ⟨i5, s5, e5, h⟩
  · exact tagNoCaseP_ne_out (optP_out h)
  rcases PRes.bind_out h with h | ⟨i7, p7, e7, h⟩
  · have ho := optP_out h
    rcases PRes.bind_out ho with hh | ⟨ia, wa, ea, hh⟩
    · exact tagNoCaseP_ne_out hh
    rcases PRes.bind_out hh with hh | ⟨ib, wb, eb, hh⟩
    · exact multispace1P_ne_out hh
    rcases PRes.bind_out hh with hh | ⟨ic, wc, ec, hh⟩
    · exact tagNoCaseP_ne_out hh
    · simp at hh
  · simp at h

theorem parsePartitionKeyL_len {fuel : Nat} {cols : List LCqlColumn}
    {input rest : List Char} {v : List LCqlColumn}
    (h : parsePartitionKeyL fuel cols input = .ok rest v) :
    rest.length ≤ input.length := by
  unfold parsePartitionKeyL at h
  rcases PRes.bind_ok h with ⟨i1, names, e1, h⟩
  have l1 : i1.length ≤ input.length := by
    rcases PRes.orElse_ok e1 with e | ⟨_, e⟩
    · rcases PRes.bind_ok e with ⟨ia, n, ea, e⟩
      injection e with e1' e2'
      subst e1'
      have := parseIdentF_len ea
      omega
    · rcases PRes.bind_ok e with ⟨ib, wb, eb, e⟩
      rcases PRes.bind_ok e with ⟨ic, ns, ec, e⟩
      rcases PRes.bind_ok e with ⟨id2, wd, ed, e⟩
      injection e with e1' e2'
      subst e1'
      have := tagP_ok eb
      have := sepList0F_len (fun i r v he => le_of_lt (identElemF_len he)) ec
      have := tagP_ok ed
      simp at *
      omega
  cases hm : mapNamesToColumnsL cols names with
  | some l => rw [hm] at h; injection h with h1 h2; subst h1; omega
  | none => rw [hm] at h; simp at h

theorem parsePartitionKeyL_noout {fuel : Nat} {cols : List LCqlColumn}
    {input : List Char} (hf : input.length < fuel) :
    parsePartitionKeyL fuel cols input ≠ .out := by
  intro h
  unfold parsePartitionKeyL at h
  rcases PRes.bind_out h with h | ⟨i1, names, e1, h⟩
  · rcases PRes.orElse_out h with h | ⟨_, h⟩
    · rcases PRes.bind_out h with h | ⟨ia, n, ea, h⟩
      · exact parseIdentF_noout hf h
      · simp at h
    · rcases PRes.bind_out h with h | ⟨ib, wb, eb, h⟩
      · exact tagP_ne_out h
      rcases PRes.bind_out h with h | ⟨ic, ns, ec, h⟩
      · have lb := tagP_ok eb
        simp at lb
        refine sepList0F_noout ib.length
          (fun i r v he => le_of_lt (identElemF_len he))
          (fun i hi => identElemF_noout (by omega)) (le_refl _) (by omega) h
      rcases PRes.bind_out h with h | ⟨id2, wd, ed, h⟩
      · exact tagP_ne_out h
      · simp at h
  · cases hm : mapNamesToColumnsL cols names with
    | some l => rw [hm] at h; simp at h
    | none => rw [hm] at h; simp at h

theorem parseClusteringColumnsL_len {fuel : Nat} {cols : List LCqlColumn}
    {input rest : List Char} {v : List LCqlColumn}
    (h : parseClusteringColumnsL fuel cols input = .ok rest v) :
    rest.length ≤ input.length := by
  unfold parseClusteringColumnsL at h
  rcases PRes.bind_ok h with ⟨i1, w1, e1, h⟩
  rcases PRes.bind_ok h with ⟨i2, ns, e2, h⟩
  have l1 := tagP_ok e1
  have l2 := sepList1F_len (fun i r v he => le_of_lt (identElemF_len he)) e2
  have m1 := multispace0P_le input
  simp at l1
  cases hm : mapNamesToColumnsL cols ns with
  | some l => rw [hm] at h; injection h with h1 h2; subst h1; omega
  | none => rw [hm] at h; simp at h

theorem parseClusteringColumnsL_noout {fuel : Nat} {cols : List LCqlColumn}
    {input : List Char} (hf : input.length < fuel) :
    parseClusteringColumnsL fuel cols input ≠ .out := by
  intro h
  unfold parseClusteringColumnsL at h
  rcases PRes.bind_out h with h | ⟨i1, w1, e1, h⟩
  · exact tagP_ne_out h
  have l1 := tagP_ok e1
  have m1 := multispace0P_le input
  simp at l1
  rcases PRes.bind_out h with h | ⟨i2, ns, e2, h⟩
  · refine sepList1F_noout i1.length
      (fun i r v he => le_of_lt (identElemF_len he))
      (fun i hi => identElemF_noout (by omega)) (le_refl _) (by omega) h
  · cases hm : mapNamesToColumnsL cols ns with
    | some l => rw [hm] at h; simp at h
    | none => rw [hm] at h; simp at h

theorem parsePrimaryKeyL_len {fuel : Nat} {cols : List LCqlColumn}
    {input rest : List Char} {v : LCqlPrimaryKey}
    (h : parsePrimaryKeyL fuel cols input = .ok rest v) :
    rest.length ≤ input.length := by
  unfold parsePrimaryKeyL at h
  rcases PRes.bind_ok h with ⟨i1, pk, e1, h⟩
  rcases PRes.bind_ok h with ⟨i2, cc, e2, h⟩
  injection h with h1 h2
  subst h1
  have l1 := parsePartitionKeyL_len e1
  have m1 := multispace0P_le i1
  have l2 : i2.length ≤ (multispace0P i1).length := by
    rcases optP_ok e2 with ⟨w, hw, _⟩ | ⟨_, hw, _⟩
    · exact parseClusteringColumnsL_len hw
    · simp [hw]
  omega

theorem parsePrimaryKeyL_noout {fuel : Nat} {cols : List LCqlColumn}
    {input : List Char} (hf : input.length < fuel) :
    parsePrimaryKeyL fuel cols input ≠ .out := by
  intro h
  unfold parsePrimaryKeyL at h
  rcases PRes.bind_out h with h | ⟨i1, pk, e1, h⟩
  · exact parsePartitionKeyL_noout hf h
  have l1 := parsePartitionKeyL_len e1
  have m1 := multispace0P_le i1
  rcases PRes.bind_out h with h | ⟨i2, cc, e2, h⟩
  · exact parseClusteringColumnsL_noout (by omega) (optP_out h)
  · simp at h

theorem orderPairElemL_len {fuel : Nat} {j rest : List Char}
    {v : CqlIdentifier × CqlOrder}
    (h : orderPairElemL fuel j = .ok rest v) : rest.length < j.length := by
  unfold orderPairElemL at h
  rcases PRes.bind_ok h with ⟨j1, n1, e1, h⟩
  rcases PRes.bind_ok h with ⟨j2, u2, e2, h⟩
  rcases PRes.bind_ok h with ⟨j3, o3, e3, h⟩
  injection h with h1 h2
  subst h1
  have l1 := parseIdentF_len e1
  have l2 := multispace1P_ok e2
  have m1 := multispace0P_le j
  have l3 : j3.length ≤ j2.length := by
    rcases PRes.orElse_ok e3 with e | ⟨_, e⟩
    · rcases PRes.bind_ok e with ⟨ja, wa, ea, e⟩
      injection e with e1' e2'
      subst e1'
      have := tagNoCaseP_ok ea
      omega
    · rcases PRes.bind_ok e with ⟨ja, wa, ea, e⟩
      injection e with e1' e2'
      subst e1'
      have := tagNoCaseP_ok ea
      omega
  omega

theorem orderPairElemL_noout {fuel : Nat} {j : List Char}
    (hf : j.length < fuel) : orderPairElemL fuel j ≠ .out := by
  intro h
  unfold orderPairElemL at h
  rcases PRes.bind_out h with h | ⟨j1, n1, e1, h⟩
  · exact parseIdentF_noout (by have := multispace0P_le j; omega) h
  rcases PRes.bind_out h with h | ⟨j2, u2, e2, h⟩
  · exact multispace1P_ne_out h
  rcases PRes.bind_out h with h | ⟨j3, o3, e3, h⟩
  · rcases PRes.orElse_out h with h | ⟨_, h⟩
    · rcases PRes.bind_out h with h | ⟨ja, wa, ea, h⟩
      · exact tagNoCaseP_ne_out h
      · simp at h
    · rcases PRes.bind_out h with h | ⟨ja, wa, ea, h⟩
      · exact tagNoCaseP_ne_out h
      · simp at h
  · simp at h

theorem parseClusteringL_len {fuel : Nat} {cols : List LCqlColumn}
    {input rest : List Char} {v : List (LCqlColumn × CqlOrder)}
    (h : parseClusteringL fuel cols input = .ok rest v) :
    rest.length ≤ input.length := by
  unfold parseClusteringL at h
  rcases PRes.bind_ok h with ⟨i1, u1, e1, h⟩
  rcases PRes.bind_ok h with ⟨i2, u2, e2, h⟩
  rcases PRes.bind_ok h with ⟨i3, ord, e3, h⟩
  rcases PRes.bind_ok h with ⟨i4, u4, e4, h⟩
  have l1 := tagsSeqNoCase_len e1
  have l2 := tagP_ok e2
  have l3 := sepList1F_len (fun i r v he => le_of_lt (orderPairElemL_len he)) e3
  have l4 := tagP_ok e4
  have m1 := multispace0P_le i1
  simp at l2 l4
  cases hm : mapOrderToColumnsL cols ord with
  | some l => rw [hm] at h; injection h with h1 h2; subst h1; omega
  | none => rw [hm] at h; simp at h

theorem parseClusteringL_noout {fuel : Nat} {cols : List LCqlColumn}
    {input : List Char} (hf : input.length < fuel) :
    parseClusteringL fuel cols input ≠ .out := by
  intro h
  unfold parseClusteringL at h
  rcases PRes.bind_out h with h | ⟨i1, u1, e1, h⟩
  · exact tagsSeqNoCase_ne_out h
  have l1 := tagsSeqNoCase_len e1
  rcases PRes.bind_out h with h | ⟨i2, u2, e2, h⟩
  · exact tagP_ne_out h
  have l2 := tagP_ok e2
  have m1 := multispace0P_le i1
  simp at l2
  rcases PRes.bind_out h with h | ⟨i3, ord, e3, h⟩
  · refine sepList1F_noout i2.length
      (fun i r v he => le_of_lt (orderPairElemL_len he))
      (fun i hi => orderPairElemL_noout (by omega)) (le_refl _) (by omega) h
  rcases PRes.bind_out h with h | ⟨i4, u4, e4, h⟩
  · exact tagP_ne_out h
  · cases hm : mapOrderToColumnsL cols ord with
    | some l => rw [hm] at h; simp at h
    | none => rw [hm] at h; simp at h

theorem parseOptionsLoopL_len :
    ∀ {fuel : Nat} {cols : List LCqlColumn} {compact : Bool}
      {clus : Option (List (LCqlColumn × CqlOrder))} {input rest : List Char}
      {v : LCqlTableOptions},
      parseOptionsLoopL fuel cols compact clus input = .ok rest v →
      rest.length ≤ input.length := by
  intro fuel
  induction fuel with
  | zero => intro cols compact clus input rest v h; simp [parseOptionsLoopL] at h
  | succ f ih =>
    intro cols compact clus input rest v h
    unfold parseOptionsLoopL at h
    have m0 := multispace0P_le input
    cases halt : (PRes.orElse
        (PRes.bind
          (tagsSeqNoCase ["COMPACT".data, "STORAGE".data] (multispace0P input))
          fun i1 _ => .ok i1 (Sum.inl ()))
        fun _ =>
          PRes.orElse
            (PRes.bind (parseClusteringL (f + 1) cols (multispace0P input))
              fun i1 ord => .ok i1 (Sum.inr ord))
            fun _ => .panic :
        PRes (Sum Unit (List (LCqlColumn × CqlOrder)))) with
    | ok i1 res =>
      simp only [halt] at h
      have l1 : i1.length ≤ input.length := by
        rcases PRes.orElse_ok halt with e | ⟨_, e⟩
        · rcases PRes.bind_ok e with ⟨ia, wa, ea, e⟩
          injection e with e1' e2'
          subst e1'
          have := tagsSeqNoCase_len ea
          omega
        · rcases PRes.orElse_ok e with e | ⟨_, e⟩
          · rcases PRes.bind_ok e with ⟨ia, wa, ea, e⟩
            injection e with e1' e2'
            subst e1'
            have := parseClusteringL_len ea
            omega
          · simp at e
      cases hand : (PRes.bind (multispace1P i1) fun ia _ =>
          tagNoCaseP "AND".data ia) with
      | ok i2 w =>
        simp only [hand] at h
        have l2 : i2.length ≤ i1.length := by
          rcases PRes.bind_ok hand with ⟨ia, wa, ea, hand⟩
          have := multispace1P_ok ea
          have := tagNoCaseP_ok hand
          omega
        have := ih h
        omega
      | err =>
        simp only [hand] at h
        injection h with h1 h2
        subst h1
        omega
      | fail => simp only [hand] at h; simp at h
      | panic => simp only [hand] at h; simp at h
      | out => simp only [hand] at h; simp at h
    | err =>
      simp only [halt] at h
      injection h with h1 h2
      subst h1
      omega
    | fail => simp only [halt] at h; simp at h
    | panic => simp only [halt] at h; simp at h
    | out => simp only [halt] at h; simp at h

theorem parseOptionsLoopL_noout :
    ∀ {fuel : Nat} {cols : List LCqlColumn} {compact : Bool}
      {clus : Option (List (LCqlColumn × CqlOrder))} {input : List Char},
      input.length < fuel →
      parseOptionsLoopL fuel cols compact clus input ≠ .out := by
  intro fuel
  induction fuel with
  | zero => intro cols compact clus input h; omega
  | succ f ih =>
    intro cols compact clus input hf h
    unfold parseOptionsLoopL at h
    have m0 := multispace0P_le input
    cases halt : (PRes.orElse
        (PRes.bind
          (tagsSeqNoCase ["COMPACT".data, "STORAGE".data] (multispace0P input))
          fun i1 _ => .ok i1 (Sum.inl ()))
        fun _ =>
          PRes.orElse
            (PRes.bind (parseClusteringL (f + 1) cols (multispace0P input))
              fun i1 ord => .ok i1 (Sum.inr ord))
            fun _ => .panic :
        PRes (Sum Unit (List (LCqlColumn × CqlOrder)))) with
    | ok i1 res =>
      simp only [halt] at h
      have l1 : i1.length ≤ input.length := by
        rcases PRes.orElse_ok halt with e | ⟨_, e⟩
        · rcases PRes.bind_ok e with ⟨ia, wa, ea, e⟩
          injection e with e1' e2'
          subst e1'
          have := tagsSeqNoCase_len ea
          omega
        · rcases PRes.orElse_ok e with e | ⟨_, e⟩
          · rcases PRes.bind_ok e with ⟨ia, wa, ea, e⟩
            injection e with e1' e2'
            subst e1'
            have := parseClusteringL_len ea
            omega
          · simp at e
      cases hand : (PRes.bind (multispace1P i1) fun ia _ =>
          tagNoCaseP "AND".data ia) with
      | ok i2 w =>
        simp only [hand] at h
        have l2 : i2.length < i1.length := by
          rcases PRes.bind_ok hand with ⟨ia, wa, ea, hand⟩
          have := multispace1P_ok ea
          have := tagNoCaseP_ok hand
          omega
        exact ih (by omega) h
      | err => simp only [hand] at h; simp at h
      | fail => simp only [hand] at h; simp at h
      | panic => simp only [hand] at h; simp at h
      | out =>
        rcases PRes.bind_out hand with hh | ⟨ia, wa, ea, hh⟩
        · exact multispace1P_ne_out hh
        · exact tagNoCaseP_ne_out hh
    | err => simp only [halt] at h; simp at h
    | fail => simp only [halt] at h; simp at h
    | panic => simp only [halt] at h; simp at h
    | out =>
      rcases PRes.orElse_out halt with e | ⟨_, e⟩
      · rcases PRes.bind_out e with e | ⟨ia, wa, ea, e⟩
        · exact tagsSeqNoCase_ne_out e
        · simp at e
      · rcases PRes.orElse_out e with e | ⟨_, e⟩
        · rcases PRes.bind_out e with e | ⟨ia, wa, ea, e⟩
          · exact parseClusteringL_noout (by omega) e
          · simp at e
        · simp at e

theorem columnElemL_len {fuel : Nat} {udts : List LCqlUserDefinedType}
    {j rest : List Char} {c : LCqlColumn}
    (h : columnElemL fuel udts j = .ok rest c) : rest.length < j.length := by
  unfold columnElemL at h
  rcases PRes.bind_ok h with ⟨j1, c1, e1, h⟩
  injection h with h1 h2
  subst h1
  have := parseColumnL_len e1
  have := multispace0P_le j
  have := multispace0P_le j1
  omega

theorem columnElemL_noout {fuel : Nat} {udts : List LCqlUserDefinedType}
    {j : List Char} (hf : j.length < fuel) :
    columnElemL fuel udts j ≠ .out := by
  intro h
  unfold columnElemL at h
  rcases PRes.bind_out h with h | ⟨j1, c1, e1, h⟩
  · exact parseColumnL_noout (by have := multispace0P_le j; omega) h
  · simp at h

theorem parseTableL_len {fuel : Nat} {udts : List LCqlUserDefinedType}
    {input rest : List Char} {t : LCqlTable}
    (h : parseTableL fuel udts input = .ok rest t) :
    rest.length ≤ input.length := by
  unfold parseTableL at h
  rcases PRes.bind_ok h with ⟨i1, u1, e1, h⟩
  rcases PRes.bind_ok h with ⟨i2, o2, e2, h⟩
  rcases PRes.bind_ok h with ⟨i3, u3, e3, h⟩
  rcases PRes.bind_ok h with ⟨i4, kn, e4, h⟩
  rcases PRes.bind_ok h with ⟨i5, u5, e5, h⟩
  rcases PRes.bind_ok h with ⟨i6, cols, e6, h⟩
  rcases PRes.bind_ok h with ⟨i7, pk, e7, h⟩
  rcases PRes.bind_ok h with ⟨i8, u8, e8, h⟩
  rcases PRes.bind_ok h with ⟨i9, opts, e9, h⟩
  injection h with h1 h2
  subst h1
  have l1 := tagsSeqNoCase_len e1
  have l2 : i2.length ≤ i1.length := by
    rcases optP_ok e2 with ⟨w, hw, _⟩ | ⟨_, hw, _⟩
    · rcases PRes.bind_ok hw with ⟨ia, wa, ea, hw⟩
      have := multispace1P_ok ea
      have := tagsSeqNoCase_len hw
      omega
    · simp [hw]
  have l3 := multispace1P_ok e3
  have l4 := parsePairIdentL_len e4
  have l5 := tagP_ok e5
  have l6 : i6.length ≤ i5.length :=
    sepList0F_len (fun i r v he => le_of_lt (columnElemL_len he)) e6
  have l7 : i7.length ≤ i6.length := by
    rcases optP_ok e7 with ⟨w, hw, _⟩ | ⟨_, hw, _⟩
    · rcases PRes.bind_ok hw with ⟨ia, wa, ea, hw⟩
      rcases PRes.bind_ok hw with ⟨ib, wb, eb, hw⟩
      rcases PRes.bind_ok hw with ⟨ic, wc, ec, hw⟩
      rcases PRes.bind_ok hw with ⟨id2, wd, ed, hw⟩
      rcases PRes.bind_ok hw with ⟨ie, pke, ee, hw⟩
      injection hw with hw1 hw2
      subst hw1
      have := tagP_ok ea
      have := tagNoCaseP_ok eb
      have := multispace1P_ok ec
      have := tagNoCaseP_ok ed
      have := parsePrimaryKeyL_len ee
      have := multispace0P_le ia
      have := multispace0P_le id2
      have := multispace0P_le ie
      simp at *
      omega
    · simp [hw]
  have l8 := tagP_ok e8
  have l9 : i9.length ≤ (multispace0P i8).length := by
    rcases optP_ok e9 with ⟨w, hw, _⟩ | ⟨_, hw, _⟩
    · rcases PRes.bind_ok hw with ⟨ia, wa, ea, hw⟩
      rcases PRes.bind_ok hw with ⟨ib, wb, eb, hw⟩
      rcases PRes.bind_ok hw with ⟨ic, oc, ec, hw⟩
      injection hw with hw1 hw2
      subst hw1
      have := tagNoCaseP_ok ea
      have := multispace1P_ok eb
      have defc := parseOptionsLoopL_len ec
      omega
    · simp [hw]
  have m4 := multispace0P_le i4
  have m8 := multispace0P_le i8
  simp at l5 l8
  omega

theorem parseTableL_noout {fuel : Nat} {udts : List LCqlUserDefinedType}
    {input : List Char} (hf : input.length < fuel) :
    parseTableL fuel udts input ≠ .out := by
  intro h
  unfold parseTableL at h
  rcases PRes.bind_out h with h | ⟨i1, u1, e1, h⟩
  · exact tagsSeqNoCase_ne_out h
  have l1 := tagsSeqNoCase_len e1
  rcases PRes.bind_out h with h | ⟨i2, o2, e2, h⟩
  · have ho := optP_out h
    rcases PRes.bind_out ho with hh | ⟨ia, wa, ea, hh⟩
    · exact multispace1P_ne_out hh
    · exact tagsSeqNoCase_ne_out hh
  have l2 : i2.length ≤ i1.length := by
    rcases optP_ok e2 with ⟨w, hw, _⟩ | ⟨_, hw, _⟩
    · rcases PRes.bind_ok hw with ⟨ia, wa, ea, hw⟩
      have := multispace1P_ok ea
      have := tagsSeqNoCase_len hw
      omega
    · simp [hw]
  rcases PRes.bind_out h with h | ⟨i3, u3, e3, h⟩
  · exact multispace1P_ne_out h
  have l3 := multispace1P_ok e3
  rcases PRes.bind_out h with h | ⟨i4, kn, e4, h⟩
  · exact parsePairIdentL_noout (by omega) h
  have l4 := parsePairIdentL_len e4
  rcases PRes.bind_out h with h | ⟨i5, u5, e5, h⟩
  · exact tagP_ne_out h
  have l5 := tagP_ok e5
  have m4 := multispace0P_le i4
  simp at l5
  rcases PRes.bind_out h with h | ⟨i6, cols, e6, h⟩
  · refine sepList0F_noout i5.length
      (fun i r v he => le_of_lt (columnElemL_len he))
      (fun i hi => columnElemL_noout (by omega)) (le_refl _) (by omega) h
  have l6 : i6.length ≤ i5.length :=
    sepList0F_len (fun i r v he => le_of_lt (columnElemL_len he)) e6
  rcases PRes.bind_out h with h | ⟨i7, pk, e7, h⟩
  · have ho := optP_out h
    rcases PRes.bind_out ho with hh | ⟨ia, wa, ea, hh⟩
    · exact tagP_ne_out hh
    have la := tagP_ok ea
    simp at la
    rcases PRes.bind_out hh with hh | ⟨ib, wb, eb, hh⟩
    · exact tagNoCaseP_ne_out hh
    have lb := tagNoCaseP_ok eb
    have ma := multispace0P_le ia
    rcases PRes.bind_out hh with hh | ⟨ic, wc, ec, hh⟩
    · exact multispace1P_ne_out hh
    have lc := multispace1P_ok ec
    rcases PRes.bind_out hh with hh | ⟨id2, wd, ed, hh⟩
    · exact tagNoCaseP_ne_out hh
    have ld := tagNoCaseP_ok ed
    have md := multispace0P_le id2
    rcases PRes.bind_out hh with hh | ⟨ie, pke, ee, hh⟩
    · exact parsePrimaryKeyL_noout (by omega) hh
    · simp at hh
  have l7 : i7.length ≤ i6.length := by
    rcases optP_ok e7 with ⟨w, hw, _⟩ | ⟨_, hw, _⟩
    · rcases PRes.bind_ok hw with ⟨ia, wa, ea, hw⟩
      rcases PRes.bind_ok hw with ⟨ib, wb, eb, hw⟩
      rcases PRes.bind_ok hw with ⟨ic, wc, ec, hw⟩
      rcases PRes.bind_ok hw with ⟨id2, wd, ed, hw⟩
      rcases PRes.bind_ok hw with ⟨ie, pke, ee, hw⟩
      injection hw with hw1 hw2
      subst hw1
      have := tagP_ok ea
      have := tagNoCaseP_ok eb
      have := multispace1P_ok ec
      have := tagNoCaseP_ok ed
      have := parsePrimaryKeyL_len ee
      have := multispace0P_le ia
      have := multispace0P_le id2
      have := multispace0P_le ie
      simp at *
      omega
    · simp [hw]
  rcases PRes.bind_out h with h | ⟨i8, u8, e8, h⟩
  · exact tagP_ne_out h
  have l8 := tagP_ok e8
  have m8 := multispace0P_le i8
  simp at l8
  rcases PRes.bind_out h with h | ⟨i9, opts, e9, h⟩
  · have ho := optP_out h
    rcases PRes.bind_out ho with hh | ⟨ia, wa, ea, hh⟩
    · exact tagNoCaseP_ne_out hh
    have la := tagNoCaseP_ok ea
    rcases PRes.bind_out hh with hh | ⟨ib, wb, eb, hh⟩
    · exact multispace1P_ne_out hh
    have lb := multispace1P_ok eb
    rcases PRes.bind_out hh with hh | ⟨ic, oc, ec, hh⟩
    · exact parseOptionsLoopL_noout (by omega) hh
    · simp at hh
  · simp at h

theorem parseStatementL_len {fuel : Nat} {udts : List LCqlUserDefinedType}
    {input rest : List Char} {st : LCqlStatement}
    (h : parseStatementL fuel udts input = .ok rest st) :
    rest.length ≤ input.length := by
  unfold parseStatementL at h
  rcases PRes.orElse_ok h with h | ⟨_, h⟩
  · rcases PRes.bind_ok h with ⟨i, u, e, h⟩
    injection h with h1 h2
    subst h1
    exact parseUdtDefL_len e
  · rcases PRes.bind_ok h with ⟨i, t, e, h⟩
    injection h with h1 h2
    subst h1
    exact parseTableL_len e

theorem parseStatementL_noout {fuel : Nat} {udts : List LCqlUserDefinedType}
    {input : List Char} (hf : input.length < fuel) :
    parseStatementL fuel udts input ≠ .out := by
  intro h
  unfold parseStatementL at h
  rcases PRes.orElse_out h with h | ⟨_, h⟩
  · rcases PRes.bind_out h with h | ⟨i, u, e, h⟩
    · exact parseUdtDefL_noout hf h
    · simp at h
  · rcases PRes.bind_out h with h | ⟨i, t, e, h⟩
    · exact parseTableL_noout hf h
    · simp at h

theorem parseStatementsL_noout :
    ∀ {fuel : Nat} {acc : List LCqlStatement} {input : List Char},
      input.length < fuel → parseStatementsL fuel acc input ≠ .out := by
  intro fuel
  induction fuel with
  | zero => intro acc input h; omega
  | succ f ih =>
    intro acc input hf h
    unfold parseStatementsL at h
    have m0 := multispace0P_le input
    cases hopt : optP
        (PRes.bind (parseStatementL (f + 1) (udtsOf acc) (multispace0P input))
          fun i s => .ok (multispace0P i) s)
        input with
    | ok i so =>
      have li : i.length ≤ input.length := by
        rcases optP_ok hopt with ⟨w, hw, _⟩ | ⟨_, hw, _⟩
        · rcases PRes.bind_ok hw with ⟨ia, sa, ea, hw⟩
          injection hw with hw1 hw2
          subst hw1
          have := parseStatementL_len ea
          have := multispace0P_le ia
          omega
        · simp [hw]
      simp only [hopt] at h
      cases so with
      | some st =>
        cases ht : tagP [';'] i with
        | ok i2 w =>
          simp only [ht] at h
          have := tagP_ok ht
          simp at this
          exact ih (by omega) h
        | err => simp only [ht] at h; simp at h
        | fail => simp only [ht] at h; simp at h
        | panic => simp only [ht] at h; simp at h
        | out => exact tagP_ne_out ht
      | none => simp at h
    | err => simp only [hopt] at h; simp at h
    | fail => simp only [hopt] at h; simp at h
    | panic => simp only [hopt] at h; simp at h
    | out =>
      have := optP_out hopt
      rcases PRes.bind_out this with hh | ⟨ia, sa, ea, hh⟩
      · exact parseStatementL_noout (by omega) hh
      · simp at hh

/-! ## Claim theorems: the parsers -/

/-- The unquoted-identifier invariant as the specification words it:
a leading ASCII letter followed by any number (possibly zero) of
letters, digits or underscores. -/
def specUnquotedInvariant (s : List Char) : Bool :=
  match s with
  | [] => false
  | c :: rest => isAlphaAscii c && rest.all isIdentTail

/-- C2 (diagnosis of the code bug): the script
`CREATE TABLE t (a int, b text, PRIMARY KEY (a))` is rejected by the
table grammar, because `parse_unquoted` requires `take_while1` (at least
one further identifier character) after the maximal alphabetic prefix
consumed by `alpha1`: the names `t`, `a`, `b` satisfy the specified
invariant `[A-Za-z][A-Za-z0-9_]*` yet fail to parse, while `t1` parses.
-/
theorem claim2_roundtrip_input_rejected :
    parseTableM 200 "CREATE TABLE t (a int, b text, PRIMARY KEY (a))".data =
      .err
    ∧ specUnquotedInvariant "t".data = true
    ∧ parseIdentF 10 "t".data = .err
    ∧ parseIdentF 10 "t1".data = .ok [] (.Unquoted "t1") :=
  ⟨rfl, rfl, rfl, rfl⟩

/-- C4 counterexample: the modular table-options parser *succeeds* on an
input consisting of a free-form key/value option, returning empty options
with the option text left unconsumed — the claim that parsing the options
always fails with an error on a free-form option is false on this code. -/
theorem claim4_counterexample :
    parseTableOptionsM 50 "comment='Hello'".data =
      .ok "comment='Hello'".data ⟨false, [], []⟩ := rfl

/-- C4 (amended): when the options loop reaches a position where neither
`COMPACT STORAGE` nor `CLUSTERING ORDER BY` matches (in particular at a
free-form key/value option), the modular parser
(`src/parse/table/options.rs`) stops and succeeds, leaving the text
unconsumed and the free-form option list empty, while the legacy parser
(`src/lib.rs`) runs into the `unimplemented!` stub `parse_option` and
panics instead of returning an error. -/
theorem claim4_free_form_option_behavior (input : List Char) (fuel : Nat)
    (cols : List LCqlColumn)
    (hm1 : tagsSeqSens ["COMPACT".data, "STORAGE".data]
        (multispace0P input) = .err)
    (hm2 : parseClusteringM (fuel + 1) (multispace0P input) = .err)
    (hl1 : tagsSeqNoCase ["COMPACT".data, "STORAGE".data]
        (multispace0P input) = .err)
    (hl2 : parseClusteringL (fuel + 1) cols (multispace0P input) = .err) :
    parseTableOptionsM (fuel + 1) input =
      .ok (multispace0P input) ⟨false, [], []⟩
    ∧ parseTableOptionsLibL (fuel + 1) cols input = .panic := by
  constructor
  · unfold parseTableOptionsM parseOptionsLoopM
    simp [hm1, hm2, PRes.orElse, PRes.bind]
  · unfold parseTableOptionsLibL parseOptionsLoopL
    simp [hl1, hl2, PRes.orElse, PRes.bind]

/-- C4 witness: the free-form option `comment = 'x'`. -/
theorem claim4_witness :
    parseTableOptionsM 50 "comment = 'x'".data =
      .ok "comment = 'x'".data ⟨false, [], []⟩
    ∧ parseTableOptionsLibL 50 [] "comment = 'x'".data = .panic :=
  claim4_free_form_option_behavior "comment = 'x'".data 49 [] rfl rfl rfl rfl

/-- C9: the recursive type grammar and the script-parsing loop (with every
statement grammar it invokes) are total: with fuel exceeding the input
length — one unit per recursive call or loop iteration — no parser ever
exhausts its fuel, so recursion depth and iteration count are bounded by
the input length and no input makes parsing run forever. -/
theorem claim9_parsers_terminate (input : List Char) (fuel : Nat)
    (hf : input.length < fuel) :
    parseCqlTypeM fuel input ≠ .out
    ∧ parseStatementsL fuel [] input ≠ .out :=
  ⟨parseCqlTypeM_noout hf, parseStatementsL_noout hf⟩

/-- C9 witness: a concrete script and type expression, with fuel one more
than the input length. -/
theorem claim9_witness :
    "CREATE TABLE t1 (a1 FROZEN<MAP<TEXT,LIST<INT>>>);".data.length < 50
    ∧ parseCqlTypeM 50 "CREATE TABLE t1 (a1 FROZEN<MAP<TEXT,LIST<INT>>>);".data
        ≠ PRes.out
    ∧ parseStatementsL 50 []
        "CREATE TABLE t1 (a1 FROZEN<MAP<TEXT,LIST<INT>>>);".data ≠ PRes.out :=
  ⟨by decide,
   (claim9_parsers_terminate
     "CREATE TABLE t1 (a1 FROZEN<MAP<TEXT,LIST<INT>>>);".data 50
     (by decide)).1,
   (claim9_parsers_terminate
     "CREATE TABLE t1 (a1 FROZEN<MAP<TEXT,LIST<INT>>>);".data 50
     (by decide)).2⟩

end CqlNom
